import Mathlib

/-!
# Menu navigation and action runner of the handheld jammer firmware

Shallow embedding of `src/src/main.cpp`: the static menu tables, the control
loop `loop()` with its navigation blocks and its action branch, the leaf
actions with their function-local statics, and the factory-reset dialog.

Conventions of the embedding

* `uint8_t` / `uint32_t` values are `Nat`; every store into a machine integer
  is reduced modulo `2^8` / `2^32`, integer-promoted arithmetic is done in
  `Int` with the truncating remainder of C (`Int.tmod`).
* A pointer is an `Option` (`none` is `nullptr`), an array is a `List`; an
  index outside the array or a dereference of `nullptr` is undefined behaviour
  in C++ and shows up as `none` / `Outcome.fault`.
* The three `Button2` objects are modelled by their latched "was pressed"
  flag: `buttonX.loop()` may set it, `wasPressed()` reads it,
  `resetPressedState()` clears it.
* Calls into the display library are recorded as `Event`s, together with
  markers telling which block of `loop()` ran.
-/

namespace Jammer

/-! ## Constants (main.cpp 16-17, 27-47) -/

def VBAT_VOLTAGE_EMPTY_long : Int := 2   -- 2.8f converted to long
def VBAT_VOLTAGE_FULL_long : Int := 3    -- 3.3f converted to long

def UINT8_MOD : Nat := 256
def UINT32_MOD : Nat := 4294967296

def CONFIG_NAMESPACE : String := "jammer"
def CONFIG_KEY_RADIO_NUM : String := "radio_count"
def CONFIG_KEY_RADIO_CONFIG_STRUCT : String := "radio_cfg"
def CONFIG_KEY_RADIO_JAM_MODE : String := "radio_jam_mode"

def option_allJam : String := "All channels (sequential)"
def option_randomJam : String := "All channels (random)"
def option_return : String := "Return"

def title_menu_main : String := "Main Menu"
def title_menu_btJam : String := "Bluetooth Jam"
def title_menu_wifiJam : String := "WiFi Jam"
def title_menu_bleJam : String := "BLE Jam"
def title_menu_zigbeeJam : String := "Zigbee Jam"
def title_menu_droneJam : String := "Drone Jam"
def title_menu_miscJam : String := "Misc Jam"
def title_menu_settings : String := "Settings"
def title_menu_about : String := "About"
def title_menu_radios : String := "Radios"
def title_menu_jammingModes : String := "Jamming Mode"

/-- Value of `JAM_TX_SIMULTANEOUS` in jam.h. -/
def JAM_TX_SIMULTANEOUS : Nat := 0

/-! ## Menu item arrays (main.cpp 49-55) -/

def menu_main : List String :=
  [title_menu_btJam, title_menu_wifiJam, title_menu_bleJam, title_menu_zigbeeJam,
   title_menu_droneJam, title_menu_miscJam, title_menu_settings, title_menu_about]
def menu_btJam : List String := ["Channel List (21)", option_allJam, option_randomJam, option_return]
def menu_wifiJam : List String := [option_allJam, "Single channel", option_return]
def menu_droneJam : List String := [option_randomJam, option_allJam, option_return]
def menu_settings : List String := [title_menu_radios, title_menu_jammingModes, "Factory Reset", option_return]
def menu_jammingModes : List String := ["Simultaneous", "Standalone"]

/-! ## Menu tree pointers (main.cpp 98-149) -/

def depth_0_menuTree : List String := menu_main
def depth_0_titleTree : List String := [title_menu_main]
def depth_1_menuTree : List (Option (List String)) :=
  [some menu_btJam, some menu_wifiJam, none, none, some menu_droneJam, none, some menu_settings, none]
def depth_1_titleTree : List String := menu_main

def depth_2_btJam : List (Option (List String)) := [none, none, none, none]
def depth_2_wifiJam : List (Option (List String)) := [none, none, none]
def depth_2_droneJam : List (Option (List String)) := [none, none, none]
def depth_2_settings : List (Option (List String)) := [none, some menu_jammingModes, none, none]

def depth_2_menuTree : List (Option (List (Option (List String)))) :=
  [some depth_2_btJam, some depth_2_wifiJam, none, none, some depth_2_droneJam, none,
   some depth_2_settings, none]

/-! ## Pre-calculated menu sizes (main.cpp 152-184) -/

def depth_0_menuSize : Nat := menu_main.length

def depth_1_menuSizes : List Nat :=
  [menu_btJam.length, menu_wifiJam.length, 0, 0, menu_droneJam.length, 0, menu_settings.length, 0]

def depth_2_btJam_sizes : List Nat := [0, 0, 0, 0]
def depth_2_wifiJam_sizes : List Nat := [0, 0, 0]
def depth_2_droneJam_sizes : List Nat := [0, 0, 0]
def depth_2_settings_sizes : List Nat := [0, menu_jammingModes.length, 0, 0]

def depth_2_menuSizes : List (Option (List Nat)) :=
  [some depth_2_btJam_sizes, some depth_2_wifiJam_sizes, none, none, some depth_2_droneJam_sizes,
   none, some depth_2_settings_sizes, none]

/-! ## Actions (main.cpp 186-281) -/

/-- A `MenuAction` function pointer: constructor `X` stands for the address of
the function `action_X`. -/
inductive MenuAction where
  | notImplemented
  | bleJam
  | zigbeeJam
  | miscJam
  | about
  | btChannelList
  | btAllSequential
  | btAllRandom
  | wifiAllRandom
  | wifiSingleChannel
  | droneAllRandom
  | droneAllSequential
  | radiosConfig
  | factorySettings
  | jammingSimultaneous
  | jammingStandalone
  deriving DecidableEq, Repr

def depth_0_actions : List (Option MenuAction) :=
  [none, none, some .bleJam, some .zigbeeJam, none, some .miscJam, none, some .about]

def depth_1_btJam_actions : List (Option MenuAction) :=
  [some .btChannelList, some .btAllSequential, some .btAllRandom, none]
def depth_1_wifiJam_actions : List (Option MenuAction) :=
  [some .wifiAllRandom, some .wifiSingleChannel, none]
def depth_1_droneJam_actions : List (Option MenuAction) :=
  [some .droneAllRandom, some .droneAllSequential, none]
def depth_1_settings_actions : List (Option MenuAction) :=
  [some .radiosConfig, none, some .factorySettings, none]

def depth_1_actions : List (Option (List (Option MenuAction))) :=
  [some depth_1_btJam_actions, some depth_1_wifiJam_actions, none, none,
   some depth_1_droneJam_actions, none, some depth_1_settings_actions, none]

def depth_2_settings_jammingMode_actions : List (Option MenuAction) :=
  [some .jammingSimultaneous, some .jammingStandalone]

def depth_2_settings_actions : List (Option (List (Option MenuAction))) :=
  [none, some depth_2_settings_jammingMode_actions, none, none]

def depth_2_actions : List (Option (List (Option (List (Option MenuAction))))) :=
  [none, none, none, none, none, none, some depth_2_settings_actions, none]

/-! ## Program state and environment -/

/-- The array `uint8_t menuPositions[3]`. -/
structure Positions where
  p0 : Nat
  p1 : Nat
  p2 : Nat
  deriving DecidableEq, Repr

/-- Read of `menuPositions[i]`; `none` outside the array. -/
def Positions.get? (ps : Positions) : Nat → Option Nat
  | 0 => some ps.p0
  | 1 => some ps.p1
  | 2 => some ps.p2
  | _ => none

/-- Store `menuPositions[i] = v` (truncated to `uint8_t`); `none` outside the array. -/
def Positions.set? (ps : Positions) (i v : Nat) : Option Positions :=
  match i with
  | 0 => some { ps with p0 := v % UINT8_MOD }
  | 1 => some { ps with p1 := v % UINT8_MOD }
  | 2 => some { ps with p2 := v % UINT8_MOD }
  | _ => none

/-- Mutable globals of main.cpp (283-285, 190), the latched flags of the three
buttons and the function-local statics of the two timed actions. -/
structure State where
  uiRefresh : Bool
  menuDepth : Nat
  menuPositions : Positions
  currentAction : Option MenuAction
  okPressed : Bool
  nextPressed : Bool
  prevPressed : Bool
  notImplemented_startTime : Nat
  about_startTime : Nat
  deriving DecidableEq, Repr

/-- Content of the preferences namespace: key and stored bytes. -/
structure Prefs where
  entries : List (String × List Nat)
  deriving DecidableEq, Repr

def Prefs.clear (_p : Prefs) : Prefs := { entries := [] }

def Prefs.putBytes (p : Prefs) (key : String) (bytes : List Nat) : Prefs :=
  { entries := (key, bytes) :: p.entries.filter (fun e => e.1 != key) }

def Prefs.putUChar (p : Prefs) (key : String) (v : Nat) : Prefs :=
  p.putBytes key [v % UINT8_MOD]

/-- What one pass over `buttonOk.loop(); buttonNext.loop(); buttonPrev.loop();`
registers inside the factory-reset dialog, and the ADC value read there. -/
structure Frame where
  ok : Bool := false
  next : Bool := false
  prev : Bool := false
  adc : Nat := 0
  deriving DecidableEq, Repr

/-- Environment seen by one iteration of `loop()`. -/
structure Input where
  ok : Bool := false          -- buttonOk.loop() registers a press
  next : Bool := false        -- buttonNext.loop() registers a press
  prev : Bool := false        -- buttonPrev.loop() registers a press
  clock : Nat := 0            -- milliseconds since boot
  adc : Nat := 0              -- analogRead(PIN_VBAT)
  lifted : Bool := true       -- OK and Prev are eventually released (factory_settings)
  dialog : List Frame := []   -- iterations of the dialog loop of factory_settings
  prefs : Prefs := { entries := [] }
  deriving DecidableEq, Repr

/-- Calls into the display library and markers of the blocks of `loop()` that ran. -/
inductive Event where
  | optionSelectScreen (title battery : String) (options : List String) (count selected : Nat)
  | runningActivityScreen (title battery message : String)
  | confirmScreen (title battery message : String) (options : List String) (count selected : Nat)
  | showRunningActivity (message : String)
  | actionCall (a : MenuAction) (done : Bool)
  | nextHandled
  | prevHandled
  | okHandled
  deriving DecidableEq, Repr

/-- Result of a call that may misbehave. -/
inductive Outcome (α : Type) where
  | ret (a : α)              -- the call returned
  | fault                    -- out-of-bounds access or nullptr dereference
  | restart (prefs : Prefs)  -- ESP.restart() was reached, with this stored configuration
  | blocked                  -- the call never returns (it waits for a button)
  deriving DecidableEq, Repr

/-! ## Helpers (main.cpp 652, Arduino core) -/

/-- `millis()`: the clock as an unsigned 32-bit value. -/
def millis (inp : Input) : Nat := inp.clock % UINT32_MOD

/-- Unsigned 32-bit subtraction `a - b`. -/
def sub32 (a b : Nat) : Nat := (a % UINT32_MOD + (UINT32_MOD - b % UINT32_MOD)) % UINT32_MOD

/-- The Arduino core function `long map(long x, long in_min, long in_max, long out_min, long out_max)`. -/
def arduino_map (x in_min in_max out_min out_max : Int) : Int :=
  let run := in_max - in_min
  if run = 0 then -1
  else
    let rise := out_max - out_min
    let delta := x - in_min
    (delta * rise).tdiv run + out_min

def get_battery_percentage (adc : Nat) : String :=
  toString (arduino_map adc VBAT_VOLTAGE_EMPTY_long VBAT_VOLTAGE_FULL_long 0 100) ++ "%"

/-- The three `buttonX.loop()` calls: a registered press latches the flag. -/
def pollButtons (s : State) (ok next prev : Bool) : State :=
  { s with okPressed := s.okPressed || ok,
           nextPressed := s.nextPressed || next,
           prevPressed := s.prevPressed || prev }

def resetPressedStates (s : State) : State :=
  { s with okPressed := false, nextPressed := false, prevPressed := false }

/-! ## Leaf actions (main.cpp 474-587) and the factory-reset dialog (654-702) -/

/-- Body of `action_notImplemented()`: new state, return value, display calls. -/
def action_notImplemented (s : State) (inp : Input) : State × Bool × List Event :=
  -- static uint32_t startTime = 0; static const uint32_t DURATION = 2000;
  if s.notImplemented_startTime = 0 then
    ({ s with notImplemented_startTime := millis inp }, false,
      [Event.runningActivityScreen "Not Implemented" (get_battery_percentage inp.adc)
        "This feature is not yet implemented."])
  else if sub32 (millis inp) s.notImplemented_startTime ≥ 2000 then
    ({ s with notImplemented_startTime := 0 }, true, [])
  else
    (s, false, [])

/-- Body of `action_about()`. -/
def action_about (s : State) (inp : Input) : State × Bool × List Event :=
  -- static uint32_t startTime = 0; static const uint32_t DURATION = 3000;
  if s.about_startTime = 0 then
    ({ s with about_startTime := millis inp }, false,
      [Event.runningActivityScreen "About" (get_battery_percentage inp.adc)
        "OTG Jammer v1.0\nby fpp3\n2026"])
  else if sub32 (millis inp) s.about_startTime ≥ 3000 then
    ({ s with about_startTime := 0 }, true, [])
  else
    (s, false, [])

/-- The loop `while (buttonOk.wasPressed() == false) ...` of `factory_settings()`,
one `Frame` per iteration; `none` when the frames run out before OK is pressed. -/
def factory_dialog (s : State) (pos : Nat) : List Frame → Option (State × Nat × List Event)
  | [] => if s.okPressed then some (s, pos, []) else none
  | f :: rest =>
    if s.okPressed then some (s, pos, [])
    else
      let s1 := pollButtons s f.ok f.next f.prev
      -- pos = (pos + 1) % 2;
      let pos1 := if s1.nextPressed then ((pos + 1) % 2) % UINT8_MOD else pos
      let s2 := if s1.nextPressed then { s1 with nextPressed := false } else s1
      -- pos = (pos - 1) % 2;   (int arithmetic, stored into uint8_t)
      let pos2 := if s2.prevPressed then ((Int.tmod ((pos1 : Int) - 1) 2) % (UINT8_MOD : Int)).toNat else pos1
      let s3 := if s2.prevPressed then { s2 with prevPressed := false } else s2
      let ev := Event.confirmScreen "Factory Reset" (get_battery_percentage f.adc)
        "Load factory Defaults?" ["Load", "Cancel"] 2 pos2
      match factory_dialog s3 pos2 rest with
      | none => none
      | some (s4, pos4, evs) => some (s4, pos4, ev :: evs)

/-- The function `factory_settings()`. -/
def factory_settings (s : State) (inp : Input) : Outcome (State × List Event) :=
  let ev0 := Event.runningActivityScreen "Factory Reset" (get_battery_percentage inp.adc)
    "Lift buttons to continue."
  -- while (buttonOk.isPressedRaw() || buttonPrev.isPressedRaw()) ;
  if !inp.lifted then Outcome.blocked
  else
    -- uint8_t pos = 1;
    match factory_dialog (resetPressedStates s) 1 inp.dialog with
    | none => Outcome.blocked
    | some (s1, pos, evs) =>
      if pos = 0 then
        -- prefs.clear(); prefs.putUChar(...); prefs.putBytes(...); ESP.restart();
        Outcome.restart
          ((inp.prefs.clear.putUChar CONFIG_KEY_RADIO_NUM 0).putBytes CONFIG_KEY_RADIO_JAM_MODE
            [JAM_TX_SIMULTANEOUS, 0, 0, 0])
      else
        Outcome.ret (resetPressedStates s1, ev0 :: evs)

/-- Body of `action_factorySettings()`: runs the dialog and reports completion at once. -/
def action_factorySettings (s : State) (inp : Input) : Outcome (State × Bool × List Event) :=
  match factory_settings s inp with
  | Outcome.ret (s1, evs) => Outcome.ret (s1, true, evs)
  | Outcome.fault => Outcome.fault
  | Outcome.restart p => Outcome.restart p
  | Outcome.blocked => Outcome.blocked

/-- Call through a `MenuAction` pointer. Every action other than `action_about`
and `action_factorySettings` is `return action_notImplemented();`. -/
def callAction (a : MenuAction) (s : State) (inp : Input) : Outcome (State × Bool × List Event) :=
  match a with
  | .about => Outcome.ret (action_about s inp)
  | .factorySettings => action_factorySettings s inp
  | .notImplemented => Outcome.ret (action_notImplemented s inp)
  | .bleJam => Outcome.ret (action_notImplemented s inp)
  | .zigbeeJam => Outcome.ret (action_notImplemented s inp)
  | .miscJam => Outcome.ret (action_notImplemented s inp)
  | .btChannelList => Outcome.ret (action_notImplemented s inp)
  | .btAllSequential => Outcome.ret (action_notImplemented s inp)
  | .btAllRandom => Outcome.ret (action_notImplemented s inp)
  | .wifiAllRandom => Outcome.ret (action_notImplemented s inp)
  | .wifiSingleChannel => Outcome.ret (action_notImplemented s inp)
  | .droneAllRandom => Outcome.ret (action_notImplemented s inp)
  | .droneAllSequential => Outcome.ret (action_notImplemented s inp)
  | .radiosConfig => Outcome.ret (action_notImplemented s inp)
  | .jammingSimultaneous => Outcome.ret (action_notImplemented s inp)
  | .jammingStandalone => Outcome.ret (action_notImplemented s inp)

/-! ## The control loop (main.cpp 320-472) -/

/-- Lines 329-341: the branch taken when `currentAction != nullptr`. -/
def actionBranch (a : MenuAction) (s : State) (inp : Input) : Outcome (State × List Event) :=
  match callAction a s inp with
  | Outcome.fault => Outcome.fault
  | Outcome.restart p => Outcome.restart p
  | Outcome.blocked => Outcome.blocked
  | Outcome.ret (s1, done, evs) =>
    if done then
      let s2 := { s1 with currentAction := none }
      if s2.menuDepth > 0 then
        let d := s2.menuDepth - 1
        match s2.menuPositions.set? (d + 1) 0 with
        | none => Outcome.fault
        | some ps =>
          Outcome.ret ({ s2 with menuDepth := d, menuPositions := ps, uiRefresh := true },
            evs ++ [Event.actionCall a true])
      else
        Outcome.ret ({ s2 with uiRefresh := true }, evs ++ [Event.actionCall a true])
    else
      Outcome.ret (s1, evs ++ [Event.actionCall a false])

/-- Lines 344-375: render the current menu level when `uiRefresh` is set. -/
def renderBlock (s : State) (inp : Input) : Option (State × List Event) :=
  if s.uiRefresh then
    let s1 := { s with uiRefresh := false }
    -- (currentMenu, currentTitle, menuSize)
    let sel : Option (Option (List String) × String × Nat) :=
      if s1.menuDepth = 0 then
        some (some depth_0_menuTree, title_menu_main, depth_0_menuSize)
      else if s1.menuDepth = 1 then do
        let currentMenu ← depth_1_menuTree[s1.menuPositions.p0]?
        let currentTitle ← menu_main[s1.menuPositions.p0]?
        let menuSize ← depth_1_menuSizes[s1.menuPositions.p0]?
        some (currentMenu, currentTitle, menuSize)
      else if s1.menuDepth = 2 then do
        let sub ← depth_2_menuTree[s1.menuPositions.p0]?
        match sub with
        | none => some (none, "", 0)
        | some tree => do
          let currentMenu ← tree[s1.menuPositions.p1]?
          match currentMenu with
          | none => some (none, "", 0)
          | some m => do
            let parent ← depth_1_menuTree[s1.menuPositions.p0]?
            let parentMenu ← parent
            let currentTitle ← parentMenu[s1.menuPositions.p1]?
            let sizesPtr ← depth_2_menuSizes[s1.menuPositions.p0]?
            let sizes ← sizesPtr
            let menuSize ← sizes[s1.menuPositions.p1]?
            some (some m, currentTitle, menuSize)
      else
        some (none, "", 0)
    match sel with
    | none => none
    | some (none, _, _) => some (s1, [])
    | some (some m, currentTitle, menuSize) =>
      if menuSize > 0 then
        match s1.menuPositions.get? s1.menuDepth with
        | none => none
        | some selected =>
          some (s1, [Event.optionSelectScreen currentTitle (get_battery_percentage inp.adc) m
            menuSize selected])
      else some (s1, [])
  else
    some (s, [])

/-- Lines 379-386 and 396-403: the local `menuSize` of the Next and Previous blocks. -/
def currentMenuSize (s : State) : Option Nat :=
  if s.menuDepth = 0 then
    some depth_0_menuSize
  else if s.menuDepth = 1 then
    depth_1_menuSizes[s.menuPositions.p0]?
  else if s.menuDepth = 2 then do
    let sizesPtr ← depth_2_menuSizes[s.menuPositions.p0]?
    match sizesPtr with
    | none => some 0
    | some sizes => sizes[s.menuPositions.p1]?
  else
    some 0

/-- Lines 388-392: the Next block once `menuSize` is known. -/
def stepNext (menuSize : Nat) (s : State) : Option State :=
  let moved : Option State :=
    if menuSize > 0 then do
      let p ← s.menuPositions.get? s.menuDepth
      -- menuPositions[menuDepth] = (menuPositions[menuDepth] + 1) % menuSize;
      let ps ← s.menuPositions.set? s.menuDepth ((p + 1) % menuSize)
      some { s with menuPositions := ps }
    else some s
  moved.map fun s1 => { s1 with nextPressed := false, uiRefresh := true }

/-- Lines 405-409: the Previous block once `menuSize` is known. -/
def stepPrev (menuSize : Nat) (s : State) : Option State :=
  let moved : Option State :=
    if menuSize > 0 then do
      let p ← s.menuPositions.get? s.menuDepth
      -- menuPositions[menuDepth] = (menuPositions[menuDepth] - 1 + menuSize) % menuSize;
      let ps ← s.menuPositions.set? s.menuDepth
        ((Int.tmod ((p : Int) - 1 + (menuSize : Int)) (menuSize : Int)) % (UINT8_MOD : Int)).toNat
      some { s with menuPositions := ps }
    else some s
  moved.map fun s1 => { s1 with prevPressed := false, uiRefresh := true }

/-- Lines 378-393: `if (buttonNext.wasPressed()) ...`. -/
def nextBlock (s : State) : Option (State × List Event) :=
  if s.nextPressed then do
    let menuSize ← currentMenuSize s
    let s1 ← stepNext menuSize s
    some (s1, [Event.nextHandled])
  else some (s, [])

/-- Lines 395-410: `if (buttonPrev.wasPressed()) ...`. -/
def prevBlock (s : State) : Option (State × List Event) :=
  if s.prevPressed then do
    let menuSize ← currentMenuSize s
    let s1 ← stepPrev menuSize s
    some (s1, [Event.prevHandled])
  else some (s, [])

/-- Lines 416-422: the local `isReturn` of the OK block. -/
def isReturn (s : State) : Option Bool :=
  if s.menuDepth = 1 then do
    let menuSize ← depth_1_menuSizes[s.menuPositions.p0]?
    if menuSize > 0 then
      some (decide ((s.menuPositions.p1 : Int) = (menuSize : Int) - 1))
    else some false
  else some false

/-- Lines 433-443: the local `hasSubmenu` of the OK block. -/
def hasSubmenu (s : State) : Option Bool :=
  if s.menuDepth = 0 then do
    let sub ← depth_1_menuTree[s.menuPositions.p0]?
    some sub.isSome
  else if s.menuDepth = 1 then do
    let tree ← depth_2_menuTree[s.menuPositions.p0]?
    match tree with
    | none => some false
    | some t => do
      let sub ← t[s.menuPositions.p1]?
      some sub.isSome
  else some false

/-- Lines 452-465: the local `action` of the leaf branch (`none` inside is `nullptr`). -/
def resolveAction (s : State) : Option (Option MenuAction) :=
  if s.menuDepth = 0 then
    depth_0_actions[s.menuPositions.p0]?
  else if s.menuDepth = 1 then do
    let acts ← depth_1_actions[s.menuPositions.p0]?
    match acts with
    | none => some none
    | some as => as[s.menuPositions.p1]?
  else if s.menuDepth = 2 then do
    let t0 ← depth_2_actions[s.menuPositions.p0]?
    match t0 with
    | none => some none
    | some t1 => do
      let t2 ← t1[s.menuPositions.p1]?
      match t2 with
      | none => some none
      | some as => as[s.menuPositions.p2]?
  else some none

/-- Lines 412-471: `if (buttonOk.wasPressed()) ...`. -/
def okBlock (s : State) : Option (State × List Event) :=
  if s.okPressed then
    let s0 := { s with okPressed := false }
    match isReturn s0 with
    | none => none
    | some true =>
      -- Go back to previous depth
      if s0.menuDepth > 0 then
        let d := s0.menuDepth - 1
        match s0.menuPositions.set? (d + 1) 0 with
        | none => none
        | some ps =>
          some ({ s0 with menuDepth := d, menuPositions := ps, uiRefresh := true }, [Event.okHandled])
      else some (s0, [Event.okHandled])
    | some false =>
      match hasSubmenu s0 with
      | none => none
      | some sub =>
        if sub && decide (s0.menuDepth < 2) then
          -- Enter submenu
          let d := (s0.menuDepth + 1) % UINT8_MOD
          match s0.menuPositions.set? d 0 with
          | none => none
          | some ps =>
            some ({ s0 with menuDepth := d, menuPositions := ps, uiRefresh := true },
              [Event.okHandled])
        else
          -- Leaf action
          match resolveAction s0 with
          | none => none
          | some action =>
            some ({ s0 with currentAction := some (action.getD MenuAction.notImplemented) },
              [Event.okHandled])
  else some (s, [])

/-- Lines 344-471: the part of `loop()` that runs when no action is active. -/
def navigation (s : State) (inp : Input) : Option (State × List Event) := do
  let (s1, e1) ← renderBlock s inp
  let (s2, e2) ← nextBlock s1
  let (s3, e3) ← prevBlock s2
  let (s4, e4) ← okBlock s3
  some (s4, e1 ++ e2 ++ e3 ++ e4)

/-- One iteration of `loop()`. -/
def loop (s : State) (inp : Input) : Outcome (State × List Event) :=
  let s0 := pollButtons s inp.ok inp.next inp.prev
  match s0.currentAction with
  | some a => actionBranch a s0 inp
  | none =>
    match navigation s0 inp with
    | none => Outcome.fault
    | some r => Outcome.ret r

/-- The globals when `loop()` first runs: `setup()` has succeeded and set `uiRefresh`. -/
def initialState : State :=
  { uiRefresh := true, menuDepth := 0, menuPositions := { p0 := 0, p1 := 0, p2 := 0 },
    currentAction := none, okPressed := false, nextPressed := false, prevPressed := false,
    notImplemented_startTime := 0, about_startTime := 0 }

/-- Run `loop()` once per input; `none` as soon as an iteration does not return normally. -/
def run (s : State) : List Input → Option State
  | [] => some s
  | i :: is =>
    match loop s i with
    | Outcome.ret (s1, _) => run s1 is
    | _ => none

/-- States the firmware can be in at the top of `loop()`. -/
inductive Reachable : State → Prop where
  | init : Reachable initialState
  | tick {s s1 : State} {inp : Input} {evs : List Event} :
      Reachable s → loop s inp = Outcome.ret (s1, evs) → Reachable s1

/-! ## Vocabulary of the specification, read off the static tables -/

/-- The item array of the menu level at depth `d` under the path `ps.p0, ps.p1, ...`;
`none` when the path does not lead to a level. -/
def levelAt (ps : Positions) : Nat → Option (List String)
  | 0 => some depth_0_menuTree
  | 1 => (depth_1_menuTree[ps.p0]?).join
  | 2 => (((depth_2_menuTree[ps.p0]?).join.bind fun tree => tree[ps.p1]?)).join
  | _ => none

/-- Number of items of the level at depth `d` under the path. -/
def sizeAt (ps : Positions) (d : Nat) : Option Nat := (levelAt ps d).map List.length

/-- Cursor invariant of the specification: the depth is at most 2 and every
position up to the current depth indexes an item of its (non-empty) level. -/
def CursorInv (s : State) : Prop :=
  s.menuDepth ≤ 2 ∧
  ∀ d, d ≤ s.menuDepth →
    ∃ p n, s.menuPositions.get? d = some p ∧ sizeAt s.menuPositions d = some n ∧ 0 < n ∧ p < n

/-- The selected index is the last one of the current level. -/
def atLastIndex (s : State) : Prop :=
  ∃ p n, s.menuPositions.get? s.menuDepth = some p ∧
    sizeAt s.menuPositions s.menuDepth = some n ∧ p + 1 = n

/-- Return slot of the specification: last index of its level, at depth at least 1. -/
def isReturnSlot (s : State) : Prop := 1 ≤ s.menuDepth ∧ atLastIndex s

/-- The selected item owns a submenu: its entry in the menu tree is not `nullptr`. -/
def hasChild (s : State) : Prop := (levelAt s.menuPositions (s.menuDepth + 1)).isSome = true

/-- The action-table entry for the full path of the selection (`none` when the
entry, or a table on the way to it, is `nullptr`). -/
def boundAction (s : State) : Option MenuAction :=
  match s.menuDepth with
  | 0 => (depth_0_actions[s.menuPositions.p0]?).join
  | 1 => ((depth_1_actions[s.menuPositions.p0]?).join.bind fun as => as[s.menuPositions.p1]?).join
  | 2 => ((((depth_2_actions[s.menuPositions.p0]?).join.bind fun t => t[s.menuPositions.p1]?).join).bind
            fun as => as[s.menuPositions.p2]?).join
  | _ => none

/-- After the buttons are polled, OK is the only button with a registered press. -/
def onlyOk (s : State) (inp : Input) : Prop :=
  (s.okPressed || inp.ok) = true ∧ (s.nextPressed || inp.next) = false ∧
    (s.prevPressed || inp.prev) = false

/-- Total counterpart of `Positions.set?`, used to state results: indices
outside the array leave it unchanged. -/
def Positions.put (ps : Positions) (i v : Nat) : Positions :=
  match i with
  | 0 => { ps with p0 := v }
  | 1 => { ps with p1 := v }
  | 2 => { ps with p2 := v }
  | _ => ps

/-- After the buttons are polled, Next is the only button with a registered press. -/
def onlyNext (s : State) (inp : Input) : Prop :=
  (s.nextPressed || inp.next) = true ∧ (s.prevPressed || inp.prev) = false ∧
    (s.okPressed || inp.ok) = false

/-- After the buttons are polled, Previous is the only button with a registered press. -/
def onlyPrev (s : State) (inp : Input) : Prop :=
  (s.prevPressed || inp.prev) = true ∧ (s.nextPressed || inp.next) = false ∧
    (s.okPressed || inp.ok) = false

/-- Apply a block `k` times in a row. -/
def repeatStep (f : State → Option State) : Nat → State → Option State
  | 0, s => some s
  | k + 1, s => (f s).bind (repeatStep f k)


/-- Events produced by the navigation part of `loop()`: the menu rendering
and the markers of the three button blocks. -/
def Event.isNavigation : Event → Bool
  | Event.optionSelectScreen _ _ _ _ _ => true
  | Event.nextHandled => true
  | Event.prevHandled => true
  | Event.okHandled => true
  | _ => false

/-- Events produced by an action call: its return marker. -/
def Event.isActionCall : Event → Bool
  | Event.actionCall _ _ => true
  | _ => false


/-! ## Concrete inputs and states used as examples -/

def pressNext : Input := { next := true }
def pressPrev : Input := { prev := true }
def pressOk : Input := { ok := true }

/-- No button has a latched press. -/
def noLatch (s : State) : Prop :=
  s.okPressed = false ∧ s.nextPressed = false ∧ s.prevPressed = false

/-- Main menu, "Bluetooth Jam" entered, selection on its last item "Return". -/
def btReturnState : State :=
  { initialState with menuDepth := 1, menuPositions := { p0 := 0, p1 := 3, p2 := 0 } }

/-- Button presses leading from the fresh state to `btReturnState`. -/
def btReturnPath : List Input := [pressOk, pressPrev]

/-- "Settings" entered, selection on "Jamming Mode". -/
def jammingModeItemState : State :=
  { initialState with menuDepth := 1, menuPositions := { p0 := 6, p1 := 1, p2 := 0 } }

def jammingModeItemPath : List Input :=
  [pressPrev, pressPrev, pressOk, pressNext]

/-- "Settings > Jamming Mode" entered, selection on its last item "Standalone". -/
def standaloneState : State :=
  { initialState with menuDepth := 2, menuPositions := { p0 := 6, p1 := 1, p2 := 1 } }

def standalonePath : List Input :=
  [pressPrev, pressPrev, pressOk, pressNext, pressOk, pressNext]

/-- Main menu with the selection on the leaf "BLE Jam". -/
def bleItemState : State :=
  { initialState with menuPositions := { p0 := 2, p1 := 0, p2 := 0 } }

def bleItemPath : List Input := [pressNext, pressNext]


/-- "Bluetooth Jam > Channel List (21)" was confirmed and its action, which is
`action_notImplemented`, has done its setup at clock value 5. -/
def btNoticeState : State :=
  { initialState with uiRefresh := false, menuDepth := 1,
                      currentAction := some MenuAction.btChannelList,
                      notImplemented_startTime := 5 }

def btNoticePath : List Input := [pressOk, pressOk, { clock := 5 }]

/-- State of the statics after the first `k` calls of `action_notImplemented()`
when call number `j` (counted from 1) is made at clock value `t0 + (j - 1) * P`. -/
def noticeStateAfter (s : State) (t0 P : Nat) : Nat → State
  | 0 => s
  | k + 1 => (action_notImplemented (noticeStateAfter s t0 P k) { clock := t0 + k * P }).1

/-- Return value of call number `k + 1` of `action_notImplemented()` in that schedule
(`false` is Running, `true` is Complete). -/
def noticeResult (s : State) (t0 P k : Nat) : Bool :=
  (action_notImplemented (noticeStateAfter s t0 P k) { clock := t0 + k * P }).2.1


/-! ## Configuration store and start-up (main.cpp 31, 293-318, 591-650) -/

/-- The array `CONFIG_MANDATORY_KEYS`, without its terminating `nullptr`. -/
def CONFIG_MANDATORY_KEYS : List String := [CONFIG_KEY_RADIO_NUM, CONFIG_KEY_RADIO_JAM_MODE]

/-- Size in bytes of the enum holding the jamming mode. -/
def SIZEOF_JAM_TX_MODE : Nat := 4

/-- Stored bytes of a key, `none` when the key is absent. -/
def Prefs.find? (p : Prefs) (key : String) : Option (List Nat) :=
  (p.entries.find? fun e => e.1 == key).map fun e => e.2

/-- `Preferences::isKey`. -/
def Prefs.isKey (p : Prefs) (key : String) : Bool := (p.find? key).isSome

/-- `Preferences::getUChar(key, defaultValue)`. -/
def Prefs.getUChar (p : Prefs) (key : String) (defaultValue : Nat) : Nat :=
  match p.find? key with
  | some [v] => v
  | _ => defaultValue

/-- `Preferences::getBytesLength`: 0 when the key is absent. -/
def Prefs.getBytesLength (p : Prefs) (key : String) : Nat :=
  match p.find? key with
  | some bytes => bytes.length
  | none => 0

/-- `Preferences::getBytes(key, buf, maxLen)`: the number of bytes read; the
stored length when it or `maxLen` is 0, and 0 when the buffer is too small. -/
def Prefs.getBytes (p : Prefs) (key : String) (maxLen : Nat) : Nat :=
  let len := p.getBytesLength key
  if len = 0 ∨ maxLen = 0 then len
  else if len > maxLen then 0
  else len

/-- The function `load_configs()`. The store is `none` when
`prefs.begin(CONFIG_NAMESPACE, true)` fails; `sizeof_radio_config_s` stands for
`sizeof(radio_config_s)`, a type that main.cpp does not declare. -/
def load_configs (sizeof_radio_config_s : Nat) (nvs : Option Prefs) : Bool :=
  match nvs with
  | none => false
  | some prefs =>
    -- for (uint8_t i = 0; CONFIG_MANDATORY_KEYS[i] != nullptr; i++) if (!prefs.isKey(...)) return 0;
    if CONFIG_MANDATORY_KEYS.any (fun key => !prefs.isKey key) then false
    else
      let numRadios := prefs.getUChar CONFIG_KEY_RADIO_NUM 0
      let radiosRead : Bool :=
        if numRadios > 0 then
          let radioConfigSize := prefs.getBytesLength CONFIG_KEY_RADIO_CONFIG_STRUCT
          let readBytes := prefs.getBytes CONFIG_KEY_RADIO_CONFIG_STRUCT
            (sizeof_radio_config_s * numRadios)
          readBytes == radioConfigSize
        else true
      if !radiosRead then false
      else
        let jamModeSize := prefs.getBytesLength CONFIG_KEY_RADIO_JAM_MODE
        let readBytes := prefs.getBytes CONFIG_KEY_RADIO_JAM_MODE SIZEOF_JAM_TX_MODE
        if readBytes != jamModeSize then false
        else true

/-- How `setup()` ends. -/
inductive Boot where
  | running (s : State) (evs : List Event)  -- setup() returned; loop() starts in state s
  | halted (evs : List Event)               -- error(): the error screen, then while (1)
  | restart (prefs : Prefs)                 -- ESP.restart() inside factory_settings()
  | blocked                                 -- factory_settings() never returned
  deriving DecidableEq, Repr

/-- The globals as they are initialised, before `setup()` runs. -/
def bootState : State := { initialState with uiRefresh := false }

/-- The display call of `error(msg)`; the function then spins forever. -/
def error (msg : String) (adc : Nat) : List Event :=
  [Event.runningActivityScreen "Error!" (get_battery_percentage adc) msg]

/-- The function `setup()`. `okRaw` and `prevRaw` are `isPressedRaw()` of the OK
and Previous buttons at power-up. -/
def setup (sizeof_radio_config_s : Nat) (nvs : Option Prefs) (okRaw prevRaw : Bool)
    (inp : Input) : Boot :=
  let afterChord : Outcome (State × List Event) :=
    if okRaw && prevRaw then
      factory_settings bootState { inp with prefs := nvs.getD { entries := [] } }
    else Outcome.ret (bootState, [])
  match afterChord with
  | Outcome.fault => Boot.blocked           -- does not occur: see factory_settings_ne_fault
  | Outcome.restart p => Boot.restart p
  | Outcome.blocked => Boot.blocked
  | Outcome.ret (s, evs) =>
    if !load_configs sizeof_radio_config_s nvs then
      Boot.halted (evs ++ error "Failed to load configurations." inp.adc)
    else
      -- boot logo, delay(2000), uiRefresh = true
      Boot.running { s with uiRefresh := true } (evs ++ [Event.showRunningActivity "otg jammer"])

/-! ## Vocabulary for the statics of the timed actions -/

/-- The action is one of the functions whose body is `return action_notImplemented();`,
or `action_notImplemented` itself: it runs on the statics of `action_notImplemented`. -/
def MenuAction.usesNoticeTimer : MenuAction → Bool
  | MenuAction.about => false
  | MenuAction.factorySettings => false
  | _ => true

/-- A start time differs from the unstarted sentinel 0 only while an action
that runs on it is active. -/
def StaticsInv (s : State) : Prop :=
  (s.notImplemented_startTime ≠ 0 →
    ∃ a, s.currentAction = some a ∧ a.usesNoticeTimer = true) ∧
  (s.about_startTime ≠ 0 → s.currentAction = some MenuAction.about)

/-- "Settings" entered, selection on "Factory Reset". -/
def factoryItemState : State :=
  { initialState with menuDepth := 1, menuPositions := { p0 := 6, p1 := 2, p2 := 0 } }

def factoryItemPath : List Input := [pressPrev, pressPrev, pressOk, pressNext, pressNext]

/-- The state right after OK was pressed on "Factory Reset". -/
def factoryStartedState : State :=
  { factoryItemState with uiRefresh := false,
                          currentAction := some MenuAction.factorySettings }

/-- The user presses OK in the dialog at once: the preselected "Cancel". -/
def cancelDialog : Input := { dialog := [{ ok := true }] }

/-- The state right after OK was pressed on the main-menu leaf "BLE Jam": the
action is active and has not been called yet. -/
def bleStartedState : State :=
  { bleItemState with uiRefresh := false, currentAction := some MenuAction.bleJam }

def bleStartedPath : List Input := [pressNext, pressNext, pressOk]

/-- The notice of "BLE Jam" is on screen since clock value 5000. -/
def bleNoticeState : State :=
  { bleStartedState with notImplemented_startTime := 5000 }

def bleNoticePath : List Input := [pressNext, pressNext, pressOk, { clock := 5000 }]

/-- In the factory-reset dialog the user presses Previous twice, then OK. -/
def prevPrevOkDialog : Input := { dialog := [{ prev := true }, { prev := true }, { ok := true }] }

/-- Positions of the levels below the current one are 0. -/
def StaleInv (s : State) : Prop :=
  ∀ d, s.menuDepth < d → d ≤ 2 → s.menuPositions.get? d = some 0

/-- In the factory-reset dialog the user presses Next (the selection moves from
"Cancel" to "Load"), then OK. -/
def confirmDialog : Input :=
  { dialog := [{ next := true }, { ok := true }],
    prefs := { entries := [("radio_count", [3]), ("stale", [1, 2])] } }

/-- The configuration written by a confirmed factory reset. -/
def factoryDefaults : Prefs :=
  { entries := [(CONFIG_KEY_RADIO_JAM_MODE, [JAM_TX_SIMULTANEOUS, 0, 0, 0]),
                (CONFIG_KEY_RADIO_NUM, [0])] }

/-! ## Auxiliary facts -/

theorem prevIndex_eq (p n : Nat) (hn : 0 < n) :
    ((Int.tmod ((p : Int) - 1 + (n : Int)) (n : Int)) % (UINT8_MOD : Int)).toNat
      = ((p + n - 1) % n) % 256 := by
  have h1 : (p : Int) - 1 + (n : Int) = ((p + n - 1 : Nat) : Int) := by omega
  rw [h1, Int.tmod_eq_emod (by omega) (by omega)]
  simp only [UINT8_MOD]
  omega

theorem Positions.set?_eq_put (ps : Positions) {i : Nat} (v : Nat) (hi : i ≤ 2) :
    ps.set? i v = some (ps.put i (v % 256)) := by
  interval_cases i <;> rfl

theorem Positions.put_put (ps : Positions) (i v w : Nat) : (ps.put i v).put i w = ps.put i w :=
  match i with
  | 0 => rfl
  | 1 => rfl
  | 2 => rfl
  | _ + 3 => rfl

theorem Positions.get?_put (ps : Positions) {i : Nat} (v : Nat) (hi : i ≤ 2) :
    (ps.put i v).get? i = some v := by
  interval_cases i <;> rfl

theorem Positions.put_get? (ps : Positions) {i p : Nat} (h : ps.get? i = some p) :
    ps.put i p = ps := by
  obtain ⟨a, b, c⟩ := ps
  match i, h with
  | 0, h => simp [Positions.get?] at h; simp [Positions.put, h]
  | 1, h => simp [Positions.get?] at h; simp [Positions.put, h]
  | 2, h => simp [Positions.get?] at h; simp [Positions.put, h]
  | _ + 3, h => simp [Positions.get?] at h

/-- The cursors allowed by the invariant, level by level. -/
theorem cursorInv_cases {s : State} (h : CursorInv s) :
    (s.menuDepth = 0 ∧ s.menuPositions.p0 < 8) ∨
    (s.menuDepth = 1 ∧ ((s.menuPositions.p0 = 0 ∧ s.menuPositions.p1 < 4) ∨
        (s.menuPositions.p0 = 1 ∧ s.menuPositions.p1 < 3) ∨
        (s.menuPositions.p0 = 4 ∧ s.menuPositions.p1 < 3) ∨
        (s.menuPositions.p0 = 6 ∧ s.menuPositions.p1 < 4))) ∨
    (s.menuDepth = 2 ∧ s.menuPositions.p0 = 6 ∧ s.menuPositions.p1 = 1 ∧ s.menuPositions.p2 < 2) := by
  obtain ⟨hd, hp⟩ := h
  obtain ⟨r, d, ⟨a, b, c⟩, act, ok, nx, pv, t1, t2⟩ := s
  simp only at hd hp ⊢
  obtain ⟨p, n, hp0, hn0, -, hlt0⟩ := hp 0 (Nat.zero_le _)
  simp [Positions.get?, sizeAt, levelAt, depth_0_menuTree, menu_main] at hp0 hn0
  subst hp0 hn0
  interval_cases d
  · left; exact ⟨rfl, hlt0⟩
  · right; left
    refine ⟨rfl, ?_⟩
    obtain ⟨p, n, hp1, hn1, -, hlt1⟩ := hp 1 (le_refl _)
    simp [Positions.get?] at hp1
    subst hp1
    interval_cases a <;>
      simp [sizeAt, levelAt, depth_1_menuTree, menu_btJam, menu_wifiJam, menu_droneJam,
        menu_settings] at hn1 <;>
      omega
  · right; right
    refine ⟨rfl, ?_⟩
    obtain ⟨p, n, hp2, hn2, -, hlt2⟩ := hp 2 (le_refl _)
    obtain ⟨p1, n1, hp1, hn1, -, hlt1⟩ := hp 1 (by omega)
    simp [Positions.get?] at hp2 hp1
    subst hp2 hp1
    interval_cases a <;>
      simp [sizeAt, levelAt, depth_1_menuTree, menu_btJam, menu_wifiJam, menu_droneJam,
        menu_settings] at hn1 <;>
      subst hn1 <;> (interval_cases b <;>
      simp [sizeAt, levelAt, depth_2_menuTree, depth_2_btJam, depth_2_wifiJam, depth_2_droneJam,
        depth_2_settings, menu_jammingModes] at hn2 <;> omega)

theorem cursorInv_depth0 {s : State} (hd : s.menuDepth = 0) (h0 : s.menuPositions.p0 < 8) :
    CursorInv s := by
  refine ⟨by omega, fun d hd1 => ?_⟩
  obtain rfl : d = 0 := by omega
  exact ⟨s.menuPositions.p0, 8, rfl, rfl, by omega, h0⟩

theorem cursorInv_depth1 {s : State} (hd : s.menuDepth = 1)
    (h : (s.menuPositions.p0 = 0 ∧ s.menuPositions.p1 < 4) ∨
        (s.menuPositions.p0 = 1 ∧ s.menuPositions.p1 < 3) ∨
        (s.menuPositions.p0 = 4 ∧ s.menuPositions.p1 < 3) ∨
        (s.menuPositions.p0 = 6 ∧ s.menuPositions.p1 < 4)) :
    CursorInv s := by
  refine ⟨by omega, fun d hd1 => ?_⟩
  have hd2 : d = 0 ∨ d = 1 := by omega
  rcases hd2 with rfl | rfl
  · exact ⟨s.menuPositions.p0, 8, rfl, rfl, by omega, by omega⟩
  · rcases h with ⟨h0, h1⟩ | ⟨h0, h1⟩ | ⟨h0, h1⟩ | ⟨h0, h1⟩
    · exact ⟨s.menuPositions.p1, 4, rfl, by simp [sizeAt, levelAt, h0, depth_1_menuTree, menu_btJam], by omega, h1⟩
    · exact ⟨s.menuPositions.p1, 3, rfl, by simp [sizeAt, levelAt, h0, depth_1_menuTree, menu_wifiJam], by omega, h1⟩
    · exact ⟨s.menuPositions.p1, 3, rfl, by simp [sizeAt, levelAt, h0, depth_1_menuTree, menu_droneJam], by omega, h1⟩
    · exact ⟨s.menuPositions.p1, 4, rfl, by simp [sizeAt, levelAt, h0, depth_1_menuTree, menu_settings], by omega, h1⟩

theorem cursorInv_depth2 {s : State} (hd : s.menuDepth = 2) (h0 : s.menuPositions.p0 = 6)
    (h1 : s.menuPositions.p1 = 1) (h2 : s.menuPositions.p2 < 2) : CursorInv s := by
  refine ⟨by omega, fun d hd1 => ?_⟩
  have hd2 : d = 0 ∨ d = 1 ∨ d = 2 := by omega
  rcases hd2 with rfl | rfl | rfl
  · exact ⟨s.menuPositions.p0, 8, rfl, rfl, by omega, by omega⟩
  · exact ⟨s.menuPositions.p1, 4, rfl, by simp [sizeAt, levelAt, h0, depth_1_menuTree, menu_settings], by omega, by omega⟩
  · exact ⟨s.menuPositions.p2, 2, rfl,
      by simp [sizeAt, levelAt, h0, h1, depth_2_menuTree, depth_2_settings, menu_jammingModes],
      by omega, h2⟩


theorem cursorInv_congr {s s1 : State} (hd : s1.menuDepth = s.menuDepth)
    (hp : s1.menuPositions = s.menuPositions) (h : CursorInv s) : CursorInv s1 := by
  unfold CursorInv at *
  rw [hd, hp]
  exact h

theorem get?_of_le {s : State} (hd : s.menuDepth ≤ 2) :
    ∃ p, s.menuPositions.get? s.menuDepth = some p := by
  generalize s.menuDepth = d at hd
  interval_cases d <;> exact ⟨_, rfl⟩

/-- Under the invariant the `menuSize` computed by the Next and Previous blocks
is the number of items of the current level. -/
theorem currentMenuSize_of_inv {s : State} (h : CursorInv s) :
    ∃ p n, currentMenuSize s = some n ∧ sizeAt s.menuPositions s.menuDepth = some n ∧
      s.menuPositions.get? s.menuDepth = some p ∧ p < n ∧ n ≤ 8 := by
  have hc := cursorInv_cases h
  obtain ⟨r, d, ⟨a, b, c⟩, act, ok, nx, pv, t1, t2⟩ := s
  simp only at hc
  rcases hc with ⟨rfl, h0⟩ | ⟨rfl, ⟨rfl, h1⟩ | ⟨rfl, h1⟩ | ⟨rfl, h1⟩ | ⟨rfl, h1⟩⟩ | ⟨rfl, rfl, rfl, h2⟩
  · exact ⟨a, 8, rfl, rfl, rfl, h0, by omega⟩
  · exact ⟨b, 4, rfl, rfl, rfl, h1, by omega⟩
  · exact ⟨b, 3, rfl, rfl, rfl, h1, by omega⟩
  · exact ⟨b, 3, rfl, rfl, rfl, h1, by omega⟩
  · exact ⟨b, 4, rfl, rfl, rfl, h1, by omega⟩
  · exact ⟨c, 2, rfl, rfl, rfl, h2, by omega⟩

theorem stepNext_eq {s : State} {n p : Nat} (hd : s.menuDepth ≤ 2)
    (hp : s.menuPositions.get? s.menuDepth = some p) (hn : 0 < n) :
    stepNext n s = some { s with
      menuPositions := s.menuPositions.put s.menuDepth (((p + 1) % n) % 256),
      nextPressed := false, uiRefresh := true } := by
  simp [stepNext, hn, hp, Positions.set?_eq_put _ _ hd]

theorem stepPrev_eq {s : State} {n p : Nat} (hd : s.menuDepth ≤ 2)
    (hp : s.menuPositions.get? s.menuDepth = some p) (hn : 0 < n) :
    stepPrev n s = some { s with
      menuPositions := s.menuPositions.put s.menuDepth (((p + n - 1) % n) % 256),
      prevPressed := false, uiRefresh := true } := by
  simp [stepPrev, hn, hp, Positions.set?_eq_put _ _ hd, prevIndex_eq p n hn]

/-- Moving the selection of the current level to another valid index keeps the invariant. -/
theorem cursorInv_put {s : State} (h : CursorInv s) {n q : Nat}
    (hn : sizeAt s.menuPositions s.menuDepth = some n) (hq : q < n) :
    CursorInv { s with menuPositions := s.menuPositions.put s.menuDepth q } := by
  have hc := cursorInv_cases h
  obtain ⟨r, d, ⟨a, b, c⟩, act, ok, nx, pv, t1, t2⟩ := s
  simp only at hc hn
  rcases hc with ⟨rfl, h0⟩ | ⟨rfl, ⟨rfl, h1⟩ | ⟨rfl, h1⟩ | ⟨rfl, h1⟩ | ⟨rfl, h1⟩⟩ | ⟨rfl, rfl, rfl, h2⟩
  · obtain rfl : n = 8 := by simpa [sizeAt, levelAt, depth_0_menuTree, menu_main] using hn.symm
    exact cursorInv_depth0 rfl hq
  · obtain rfl : n = 4 := by simpa [sizeAt, levelAt, depth_1_menuTree, menu_btJam] using hn.symm
    exact cursorInv_depth1 rfl (Or.inl ⟨rfl, hq⟩)
  · obtain rfl : n = 3 := by simpa [sizeAt, levelAt, depth_1_menuTree, menu_wifiJam] using hn.symm
    exact cursorInv_depth1 rfl (Or.inr (Or.inl ⟨rfl, hq⟩))
  · obtain rfl : n = 3 := by simpa [sizeAt, levelAt, depth_1_menuTree, menu_droneJam] using hn.symm
    exact cursorInv_depth1 rfl (Or.inr (Or.inr (Or.inl ⟨rfl, hq⟩)))
  · obtain rfl : n = 4 := by simpa [sizeAt, levelAt, depth_1_menuTree, menu_settings] using hn.symm
    exact cursorInv_depth1 rfl (Or.inr (Or.inr (Or.inr ⟨rfl, hq⟩)))
  · obtain rfl : n = 2 := by
      simpa [sizeAt, levelAt, depth_2_menuTree, depth_2_settings, menu_jammingModes] using hn.symm
    exact cursorInv_depth2 rfl rfl rfl hq

/-- The Next block under the invariant: it does not fault and moves the
selection of the current level one step forward, wrapping at the level size. -/
theorem nextBlock_of_inv {s : State} (h : CursorInv s) (hpr : s.nextPressed = true) :
    ∃ p n, s.menuPositions.get? s.menuDepth = some p ∧
      sizeAt s.menuPositions s.menuDepth = some n ∧ p < n ∧
      nextBlock s = some ({ s with
        menuPositions := s.menuPositions.put s.menuDepth ((p + 1) % n),
        nextPressed := false, uiRefresh := true }, [Event.nextHandled]) := by
  obtain ⟨p, n, hsz, hn, hp, hlt, hn8⟩ := currentMenuSize_of_inv h
  refine ⟨p, n, hp, hn, hlt, ?_⟩
  have hmod : ((p + 1) % n) % 256 = (p + 1) % n :=
    Nat.mod_eq_of_lt (lt_of_lt_of_le (Nat.mod_lt _ (by omega)) (by omega))
  simp [nextBlock, hpr, hsz, stepNext_eq h.1 hp (by omega : 0 < n), hmod]

/-- The Previous block under the invariant. -/
theorem prevBlock_of_inv {s : State} (h : CursorInv s) (hpr : s.prevPressed = true) :
    ∃ p n, s.menuPositions.get? s.menuDepth = some p ∧
      sizeAt s.menuPositions s.menuDepth = some n ∧ p < n ∧
      prevBlock s = some ({ s with
        menuPositions := s.menuPositions.put s.menuDepth ((p + n - 1) % n),
        prevPressed := false, uiRefresh := true }, [Event.prevHandled]) := by
  obtain ⟨p, n, hsz, hn, hp, hlt, hn8⟩ := currentMenuSize_of_inv h
  refine ⟨p, n, hp, hn, hlt, ?_⟩
  have hmod : ((p + n - 1) % n) % 256 = (p + n - 1) % n :=
    Nat.mod_eq_of_lt (lt_of_lt_of_le (Nat.mod_lt _ (by omega)) (by omega))
  simp [prevBlock, hpr, hsz, stepPrev_eq h.1 hp (by omega : 0 < n), hmod]

theorem nextBlock_idle {s : State} (hpr : s.nextPressed = false) : nextBlock s = some (s, []) := by
  simp [nextBlock, hpr]

theorem prevBlock_idle {s : State} (hpr : s.prevPressed = false) : prevBlock s = some (s, []) := by
  simp [prevBlock, hpr]

theorem okBlock_idle {s : State} (hpr : s.okPressed = false) : okBlock s = some (s, []) := by
  simp [okBlock, hpr]

/-- The render block under the invariant: it does not fault, clears `uiRefresh`
and changes nothing else. -/
theorem renderBlock_of_inv {s : State} (inp : Input) (h : CursorInv s) :
    ∃ evs, renderBlock s inp = some ({ s with uiRefresh := false }, evs) ∧
      ∀ e ∈ evs, ∃ t b o c i, e = Event.optionSelectScreen t b o c i := by
  have hc := cursorInv_cases h
  obtain ⟨r, d, ⟨a, b, c⟩, act, ok, nx, pv, t1, t2⟩ := s
  simp only at hc
  cases r
  · exact ⟨[], by simp [renderBlock], by simp⟩
  · rcases hc with ⟨rfl, h0⟩ | ⟨rfl, ⟨rfl, h1⟩ | ⟨rfl, h1⟩ | ⟨rfl, h1⟩ | ⟨rfl, h1⟩⟩ |
      ⟨rfl, rfl, rfl, h2⟩ <;>
    simp [renderBlock, depth_0_menuSize, depth_0_menuTree, menu_main, depth_1_menuTree,
      depth_1_menuSizes, depth_2_menuTree, depth_2_menuSizes, depth_2_settings,
      depth_2_settings_sizes, menu_btJam, menu_wifiJam, menu_droneJam, menu_settings,
      menu_jammingModes, Positions.get?]


/-- The OK block under the invariant: it does not fault and takes exactly one
of its three branches (pop on the depth-1 return item, push into a submenu,
start the leaf action). -/
theorem okBlock_of_inv {s : State} (h : CursorInv s) (hpr : s.okPressed = true) :
    ∃ s1, okBlock s = some (s1, [Event.okHandled]) ∧
      ((s.menuDepth = 1 ∧ atLastIndex s ∧
          s1 = { s with okPressed := false, menuDepth := 0,
                        menuPositions := s.menuPositions.put 1 0, uiRefresh := true }) ∨
       (¬ (s.menuDepth = 1 ∧ atLastIndex s) ∧ hasChild s ∧ s.menuDepth < 2 ∧
          s1 = { s with okPressed := false, menuDepth := s.menuDepth + 1,
                        menuPositions := s.menuPositions.put (s.menuDepth + 1) 0,
                        uiRefresh := true }) ∨
       (¬ (s.menuDepth = 1 ∧ atLastIndex s) ∧ ¬ hasChild s ∧
          s1 = { s with okPressed := false,
                        currentAction := some ((boundAction s).getD MenuAction.notImplemented) })) := by
  have hc := cursorInv_cases h
  obtain ⟨r, d, ⟨a, b, c⟩, act, ok, nx, pv, t1, t2⟩ := s
  simp only at hc hpr
  subst hpr
  rcases hc with ⟨rfl, h0⟩ | ⟨rfl, ⟨rfl, h1⟩ | ⟨rfl, h1⟩ | ⟨rfl, h1⟩ | ⟨rfl, h1⟩⟩ | ⟨rfl, rfl, rfl, h2⟩
  · interval_cases a <;>
      simp [okBlock, isReturn, hasSubmenu, resolveAction, depth_1_menuTree, depth_0_actions,
        Positions.set?, Positions.put, UINT8_MOD, atLastIndex, hasChild, boundAction, levelAt,
        sizeAt, Positions.get?]
  · interval_cases b <;>
      simp [okBlock, isReturn, hasSubmenu, resolveAction, depth_1_menuSizes, menu_btJam,
        depth_2_menuTree, depth_2_btJam, depth_1_actions, depth_1_btJam_actions,
        depth_1_menuTree, Positions.set?, Positions.put, UINT8_MOD, atLastIndex, hasChild,
        boundAction, levelAt, sizeAt, Positions.get?]
  · interval_cases b <;>
      simp [okBlock, isReturn, hasSubmenu, resolveAction, depth_1_menuSizes, menu_wifiJam,
        depth_2_menuTree, depth_2_wifiJam, depth_1_actions, depth_1_wifiJam_actions,
        depth_1_menuTree, Positions.set?, Positions.put, UINT8_MOD, atLastIndex, hasChild,
        boundAction, levelAt, sizeAt, Positions.get?]
  · interval_cases b <;>
      simp [okBlock, isReturn, hasSubmenu, resolveAction, depth_1_menuSizes, menu_droneJam,
        depth_2_menuTree, depth_2_droneJam, depth_1_actions, depth_1_droneJam_actions,
        depth_1_menuTree, Positions.set?, Positions.put, UINT8_MOD, atLastIndex, hasChild,
        boundAction, levelAt, sizeAt, Positions.get?]
  · interval_cases b <;>
      simp [okBlock, isReturn, hasSubmenu, resolveAction, depth_1_menuSizes, menu_settings,
        depth_2_menuTree, depth_2_settings, depth_1_actions, depth_1_settings_actions,
        depth_1_menuTree, Positions.set?, Positions.put, UINT8_MOD, atLastIndex, hasChild,
        boundAction, levelAt, sizeAt, Positions.get?]
  · interval_cases c <;>
      simp [okBlock, isReturn, hasSubmenu, resolveAction, depth_2_actions,
        depth_2_settings_actions, depth_2_settings_jammingMode_actions, depth_2_menuTree,
        depth_2_settings, menu_jammingModes, Positions.set?, Positions.put, UINT8_MOD,
        atLastIndex, hasChild, boundAction, levelAt, sizeAt, Positions.get?]


theorem nextBlock_total {s : State} (h : CursorInv s) :
    ∃ s1 e, nextBlock s = some (s1, e) ∧ CursorInv s1 ∧ s1.menuDepth = s.menuDepth ∧
      s1.currentAction = s.currentAction ∧
      s1.notImplemented_startTime = s.notImplemented_startTime ∧
      s1.about_startTime = s.about_startTime ∧ s1.okPressed = s.okPressed ∧
      s1.prevPressed = s.prevPressed ∧ (∀ a d, Event.actionCall a d ∉ e) := by
  cases hpr : s.nextPressed
  · exact ⟨s, [], nextBlock_idle hpr, h, rfl, rfl, rfl, rfl, rfl, rfl, by simp⟩
  · obtain ⟨p, n, hp, hn, hlt, heq⟩ := nextBlock_of_inv h hpr
    refine ⟨_, _, heq, ?_, rfl, rfl, rfl, rfl, rfl, rfl, by simp⟩
    exact cursorInv_congr rfl rfl (cursorInv_put h hn (Nat.mod_lt _ (by omega)))

theorem prevBlock_total {s : State} (h : CursorInv s) :
    ∃ s1 e, prevBlock s = some (s1, e) ∧ CursorInv s1 ∧ s1.menuDepth = s.menuDepth ∧
      s1.currentAction = s.currentAction ∧
      s1.notImplemented_startTime = s.notImplemented_startTime ∧
      s1.about_startTime = s.about_startTime ∧ s1.okPressed = s.okPressed ∧
      (∀ a d, Event.actionCall a d ∉ e) := by
  cases hpr : s.prevPressed
  · exact ⟨s, [], prevBlock_idle hpr, h, rfl, rfl, rfl, rfl, rfl, by simp⟩
  · obtain ⟨p, n, hp, hn, hlt, heq⟩ := prevBlock_of_inv h hpr
    refine ⟨_, _, heq, ?_, rfl, rfl, rfl, rfl, rfl, by simp⟩
    exact cursorInv_congr rfl rfl (cursorInv_put h hn (Nat.mod_lt _ (by omega)))

theorem okBlock_total {s : State} (h : CursorInv s) :
    ∃ s1 e, okBlock s = some (s1, e) ∧ CursorInv s1 ∧
      s1.notImplemented_startTime = s.notImplemented_startTime ∧
      s1.about_startTime = s.about_startTime ∧ (∀ a d, Event.actionCall a d ∉ e) := by
  cases hpr : s.okPressed
  · exact ⟨s, [], okBlock_idle hpr, h, rfl, rfl, by simp⟩
  · obtain ⟨s1, heq, hcase⟩ := okBlock_of_inv h hpr
    refine ⟨s1, _, heq, ?_, ?_, ?_, by simp⟩
    · have hc := cursorInv_cases h
      rcases hcase with ⟨hd, -, rfl⟩ | ⟨-, hch, hd, rfl⟩ | ⟨-, -, rfl⟩
      · refine cursorInv_depth0 rfl ?_
        rcases hc with ⟨-, h0⟩ | ⟨-, ⟨h0, -⟩ | ⟨h0, -⟩ | ⟨h0, -⟩ | ⟨h0, -⟩⟩ | ⟨hd2, -⟩ <;>
          simp [Positions.put] <;> omega
      · obtain ⟨r, d, ⟨a, b, c⟩, act, ok, nx, pv, t1, t2⟩ := s
        simp only at hc hch hd ⊢
        rcases hc with ⟨rfl, h0⟩ | ⟨rfl, ⟨rfl, h1⟩ | ⟨rfl, h1⟩ | ⟨rfl, h1⟩ | ⟨rfl, h1⟩⟩ | ⟨rfl, -⟩
        · refine cursorInv_depth1 rfl ?_
          interval_cases a <;> simp [hasChild, levelAt, depth_1_menuTree, Positions.put] at hch ⊢
        · interval_cases b <;> simp [hasChild, levelAt, depth_2_menuTree, depth_2_btJam] at hch
        · interval_cases b <;> simp [hasChild, levelAt, depth_2_menuTree, depth_2_wifiJam] at hch
        · interval_cases b <;> simp [hasChild, levelAt, depth_2_menuTree, depth_2_droneJam] at hch
        · interval_cases b <;> simp [hasChild, levelAt, depth_2_menuTree, depth_2_settings] at hch
          exact cursorInv_depth2 rfl rfl rfl (by simp [Positions.put])
        · omega
      · exact cursorInv_congr rfl rfl h
    · rcases hcase with ⟨-, -, rfl⟩ | ⟨-, -, -, rfl⟩ | ⟨-, -, rfl⟩ <;> rfl
    · rcases hcase with ⟨-, -, rfl⟩ | ⟨-, -, -, rfl⟩ | ⟨-, -, rfl⟩ <;> rfl

/-- With no action active and the invariant, the navigation part of `loop()`
runs to the end without a fault, keeps the invariant, calls no action and
leaves the statics of the actions alone. -/
theorem navigation_of_inv {s : State} (inp : Input) (h : CursorInv s) :
    ∃ s1 evs, navigation s inp = some (s1, evs) ∧ CursorInv s1 ∧
      s1.notImplemented_startTime = s.notImplemented_startTime ∧
      s1.about_startTime = s.about_startTime ∧ (∀ a d, Event.actionCall a d ∉ evs) := by
  obtain ⟨e1, hr, he1⟩ := renderBlock_of_inv inp h
  have hA : CursorInv { s with uiRefresh := false } := cursorInv_congr rfl rfl h
  obtain ⟨sB, e2, hB, hinvB, -, -, hB1, hB2, -, -, he2⟩ := nextBlock_total hA
  obtain ⟨sC, e3, hC, hinvC, -, -, hC1, hC2, -, he3⟩ := prevBlock_total hinvB
  obtain ⟨sD, e4, hD, hinvD, hD1, hD2, he4⟩ := okBlock_total hinvC
  refine ⟨sD, e1 ++ e2 ++ e3 ++ e4, ?_, hinvD, ?_, ?_, ?_⟩
  · simp [navigation, hr, hB, hC, hD]
  · rw [hD1, hC1, hB1]
  · rw [hD2, hC2, hB2]
  · intro a d hmem
    simp only [List.mem_append] at hmem
    rcases hmem with ((hm | hm) | hm) | hm
    · obtain ⟨t, b, o, c, i, heq⟩ := he1 _ hm
      cases heq
    · exact he2 a d hm
    · exact he3 a d hm
    · exact he4 a d hm


/-! ## The action branch -/

theorem action_notImplemented_frame (s : State) (inp : Input) :
    (action_notImplemented s inp).1.menuDepth = s.menuDepth ∧
    (action_notImplemented s inp).1.menuPositions = s.menuPositions ∧
    (action_notImplemented s inp).1.currentAction = s.currentAction ∧
    (action_notImplemented s inp).1.uiRefresh = s.uiRefresh ∧
    ∀ e ∈ (action_notImplemented s inp).2.2, e.isNavigation = false ∧ e.isActionCall = false := by
  unfold action_notImplemented
  split
  · simp [Event.isNavigation, Event.isActionCall]
  · split <;> simp

theorem action_about_frame (s : State) (inp : Input) :
    (action_about s inp).1.menuDepth = s.menuDepth ∧
    (action_about s inp).1.menuPositions = s.menuPositions ∧
    (action_about s inp).1.currentAction = s.currentAction ∧
    (action_about s inp).1.uiRefresh = s.uiRefresh ∧
    ∀ e ∈ (action_about s inp).2.2, e.isNavigation = false ∧ e.isActionCall = false := by
  unfold action_about
  split
  · simp [Event.isNavigation, Event.isActionCall]
  · split <;> simp

theorem factory_dialog_frame (frames : List Frame) :
    ∀ (s : State) (pos : Nat) (s1 : State) (pos1 : Nat) (evs : List Event),
      factory_dialog s pos frames = some (s1, pos1, evs) →
      s1.menuDepth = s.menuDepth ∧ s1.menuPositions = s.menuPositions ∧
      s1.currentAction = s.currentAction ∧ s1.uiRefresh = s.uiRefresh ∧
      ∀ e ∈ evs, e.isNavigation = false ∧ e.isActionCall = false := by
  induction frames with
  | nil =>
    intro s pos s1 pos1 evs h
    simp only [factory_dialog] at h
    split at h
    · simp only [Option.some.injEq, Prod.mk.injEq] at h
      obtain ⟨rfl, -, rfl⟩ := h
      simp
    · cases h
  | cons f rest ih =>
    intro s pos s1 pos1 evs h
    simp only [factory_dialog] at h
    split at h
    · simp only [Option.some.injEq, Prod.mk.injEq] at h
      obtain ⟨rfl, -, rfl⟩ := h
      simp
    · split at h
      · cases h
      · rename_i s4 pos4 evs4 hrec
        simp only [Option.some.injEq, Prod.mk.injEq] at h
        obtain ⟨rfl, -, rfl⟩ := h
        obtain ⟨h1, h2, h3, h4, h5⟩ := ih _ _ _ _ _ hrec
        refine ⟨?_, ?_, ?_, ?_, ?_⟩
        · rw [h1]; simp only [pollButtons]; split <;> split <;> rfl
        · rw [h2]; simp only [pollButtons]; split <;> split <;> rfl
        · rw [h3]; simp only [pollButtons]; split <;> split <;> rfl
        · rw [h4]; simp only [pollButtons]; split <;> split <;> rfl
        · intro e he
          simp only [List.mem_cons] at he
          rcases he with rfl | he
          · simp [Event.isNavigation, Event.isActionCall]
          · exact h5 e he

/-- An action call leaves the cursor, `currentAction` and `uiRefresh` alone and
emits display calls only. -/
theorem callAction_frame {a : MenuAction} {s s1 : State} {inp : Input} {done : Bool}
    {evs : List Event} (h : callAction a s inp = Outcome.ret (s1, done, evs)) :
    s1.menuDepth = s.menuDepth ∧ s1.menuPositions = s.menuPositions ∧
    s1.currentAction = s.currentAction ∧ s1.uiRefresh = s.uiRefresh ∧
    ∀ e ∈ evs, e.isNavigation = false ∧ e.isActionCall = false := by
  have hN := action_notImplemented_frame s inp
  have hA := action_about_frame s inp
  cases a
  case factorySettings =>
    simp only [callAction, action_factorySettings, factory_settings] at h
    split at h
    · rename_i s2 evs2 heq
      simp only [Outcome.ret.injEq, Prod.mk.injEq] at h
      obtain ⟨rfl, -, rfl⟩ := h
      split at heq
      · cases heq
      · split at heq
        · cases heq
        · rename_i s3 pos evs3 hdlg
          split at heq
          · cases heq
          · simp only [Outcome.ret.injEq, Prod.mk.injEq] at heq
            obtain ⟨rfl, rfl⟩ := heq
            obtain ⟨h1, h2, h3, h4, h5⟩ := factory_dialog_frame _ _ _ _ _ _ hdlg
            refine ⟨h1, h2, h3, h4, ?_⟩
            intro e he
            simp only [List.mem_cons] at he
            rcases he with rfl | he
            · simp [Event.isNavigation, Event.isActionCall]
            · exact h5 e he
    all_goals cases h
  case about =>
    simp only [callAction, Outcome.ret.injEq] at h
    rw [h] at hA
    exact hA
  all_goals
    simp only [callAction, Outcome.ret.injEq] at h
    rw [h] at hN
    exact hN

/-- The action branch of `loop()` once the action has returned. -/
theorem actionBranch_of_ret {a : MenuAction} {s s1 : State} {inp : Input} {done : Bool}
    {aevs : List Event} (hd : s.menuDepth ≤ 2)
    (h : callAction a s inp = Outcome.ret (s1, done, aevs)) :
    actionBranch a s inp = Outcome.ret
      (if done then
        (if 0 < s.menuDepth then
          { s1 with currentAction := none, menuDepth := s.menuDepth - 1,
                    menuPositions := s.menuPositions.put s.menuDepth 0, uiRefresh := true }
         else { s1 with currentAction := none, uiRefresh := true })
       else s1, aevs ++ [Event.actionCall a done]) := by
  obtain ⟨h1, h2, -, -, -⟩ := callAction_frame h
  simp only [actionBranch, h]
  cases done
  · simp
  · by_cases h0 : 0 < s.menuDepth
    · have hs : s.menuDepth - 1 + 1 = s.menuDepth := by omega
      simp [h1, h2, h0, hs, Positions.set?_eq_put _ _ hd]
    · simp [h1, h0]

theorem loop_action {s : State} {a : MenuAction} (inp : Input) (h : s.currentAction = some a) :
    loop s inp = actionBranch a (pollButtons s inp.ok inp.next inp.prev) inp := by
  simp [loop, pollButtons, h]

theorem loop_idle {s : State} (inp : Input) (h : s.currentAction = none) :
    loop s inp =
      match navigation (pollButtons s inp.ok inp.next inp.prev) inp with
      | none => Outcome.fault
      | some r => Outcome.ret r := by
  simp [loop, pollButtons, h]

/-- One iteration of `loop()` keeps the cursor invariant. -/
theorem loop_inv {s s1 : State} {inp : Input} {evs : List Event} (h : CursorInv s)
    (hl : loop s inp = Outcome.ret (s1, evs)) : CursorInv s1 := by
  have hP : CursorInv (pollButtons s inp.ok inp.next inp.prev) := cursorInv_congr rfl rfl h
  cases hact : s.currentAction with
  | none =>
    rw [loop_idle inp hact] at hl
    obtain ⟨s2, e2, hnav, hinv2, -⟩ := navigation_of_inv inp hP
    rw [hnav] at hl
    simp only [Outcome.ret.injEq, Prod.mk.injEq] at hl
    obtain ⟨rfl, -⟩ := hl
    exact hinv2
  | some a =>
    rw [loop_action inp hact] at hl
    cases hcall : callAction a (pollButtons s inp.ok inp.next inp.prev) inp with
    | fault => simp [actionBranch, hcall] at hl
    | restart p => simp [actionBranch, hcall] at hl
    | blocked => simp [actionBranch, hcall] at hl
    | ret r =>
      obtain ⟨s2, done, aevs⟩ := r
      obtain ⟨h1, h2, -, -, -⟩ := callAction_frame hcall
      rw [actionBranch_of_ret hP.1 hcall] at hl
      simp only [Outcome.ret.injEq, Prod.mk.injEq] at hl
      obtain ⟨rfl, -⟩ := hl
      cases done
      · exact cursorInv_congr h1 h2 h
      · have hc := cursorInv_cases h
        simp only [pollButtons, if_true]
        split
        · rename_i hpos
          rcases hc with ⟨hd, -⟩ | ⟨hd, hc⟩ | ⟨hd, h0, h1, -⟩
          · omega
          · refine cursorInv_depth0 (by simp [hd]) ?_
            simp only [hd, Positions.put]
            rcases hc with ⟨h0, -⟩ | ⟨h0, -⟩ | ⟨h0, -⟩ | ⟨h0, -⟩ <;> omega
          · refine cursorInv_depth1 (by simp [hd]) ?_
            simp only [hd, Positions.put]
            right; right; right
            exact ⟨h0, by omega⟩
        · exact cursorInv_congr h1 h2 h

theorem cursorInv_initialState : CursorInv initialState :=
  cursorInv_depth0 rfl (by decide)

/-- Every reachable state satisfies the cursor invariant. -/
theorem reachable_inv {s : State} (h : Reachable s) : CursorInv s := by
  induction h with
  | init => exact cursorInv_initialState
  | tick _ hl ih => exact loop_inv ih hl

theorem reachable_of_run {s s1 : State} (inps : List Input) (h : Reachable s)
    (hr : run s inps = some s1) : Reachable s1 := by
  induction inps generalizing s with
  | nil =>
    simp only [run, Option.some.injEq] at hr
    exact hr ▸ h
  | cons i is ih =>
    simp only [run] at hr
    split at hr
    · rename_i s2 evs hl
      exact ih (Reachable.tick h hl) hr
    · cases hr


/-! ## Ticks with a single button -/

/-- A tick with no action active in which OK is the only pressed button is the
OK block applied after rendering. -/
theorem loop_onlyOk {s : State} {i : Input} (h : CursorInv s) (hact : s.currentAction = none)
    (hin : onlyOk s i) :
    ∃ e1, ∀ s1 e,
      okBlock { s with uiRefresh := false, okPressed := true, nextPressed := false,
                       prevPressed := false } = some (s1, e) →
      loop s i = Outcome.ret (s1, e1 ++ e) := by
  obtain ⟨h1, h2, h3⟩ := hin
  have hpoll : pollButtons s i.ok i.next i.prev =
      { s with okPressed := true, nextPressed := false, prevPressed := false } := by
    simp [pollButtons, h1, h2, h3]
  obtain ⟨e1, hr, -⟩ := renderBlock_of_inv i
    (cursorInv_congr rfl rfl h :
      CursorInv { s with okPressed := true, nextPressed := false, prevPressed := false })
  refine ⟨e1, fun s1 e hok => ?_⟩
  rw [loop_idle i hact, hpoll]
  simp [navigation, hr, nextBlock, prevBlock, hok]

theorem loop_onlyNext {s : State} {i : Input} (h : CursorInv s) (hact : s.currentAction = none)
    (hin : onlyNext s i) :
    ∃ p n evs, s.menuPositions.get? s.menuDepth = some p ∧
      sizeAt s.menuPositions s.menuDepth = some n ∧ p < n ∧
      loop s i = Outcome.ret
        ({ s with menuPositions := s.menuPositions.put s.menuDepth ((p + 1) % n),
                  uiRefresh := true, okPressed := false, nextPressed := false,
                  prevPressed := false }, evs) := by
  obtain ⟨h1, h2, h3⟩ := hin
  have hpoll : pollButtons s i.ok i.next i.prev =
      { s with okPressed := false, nextPressed := true, prevPressed := false } := by
    simp [pollButtons, h1, h2, h3]
  obtain ⟨e1, hr, -⟩ := renderBlock_of_inv i
    (cursorInv_congr rfl rfl h :
      CursorInv { s with okPressed := false, nextPressed := true, prevPressed := false })
  obtain ⟨p, n, hp, hn, hlt, hnb⟩ := nextBlock_of_inv
    (cursorInv_congr rfl rfl h :
      CursorInv { s with uiRefresh := false, okPressed := false, nextPressed := true,
                         prevPressed := false }) rfl
  refine ⟨p, n, e1 ++ [Event.nextHandled], hp, hn, hlt, ?_⟩
  rw [loop_idle i hact, hpoll]
  simp [navigation, hr, hnb, prevBlock, okBlock]

theorem loop_onlyPrev {s : State} {i : Input} (h : CursorInv s) (hact : s.currentAction = none)
    (hin : onlyPrev s i) :
    ∃ p n evs, s.menuPositions.get? s.menuDepth = some p ∧
      sizeAt s.menuPositions s.menuDepth = some n ∧ p < n ∧
      loop s i = Outcome.ret
        ({ s with menuPositions := s.menuPositions.put s.menuDepth ((p + n - 1) % n),
                  uiRefresh := true, okPressed := false, nextPressed := false,
                  prevPressed := false }, evs) := by
  obtain ⟨h1, h2, h3⟩ := hin
  have hpoll : pollButtons s i.ok i.next i.prev =
      { s with okPressed := false, nextPressed := false, prevPressed := true } := by
    simp [pollButtons, h1, h2, h3]
  obtain ⟨e1, hr, -⟩ := renderBlock_of_inv i
    (cursorInv_congr rfl rfl h :
      CursorInv { s with okPressed := false, nextPressed := false, prevPressed := true })
  obtain ⟨p, n, hp, hn, hlt, hnb⟩ := prevBlock_of_inv
    (cursorInv_congr rfl rfl h :
      CursorInv { s with uiRefresh := false, okPressed := false, nextPressed := false,
                         prevPressed := true }) rfl
  refine ⟨p, n, e1 ++ [Event.prevHandled], hp, hn, hlt, ?_⟩
  rw [loop_idle i hact, hpoll]
  simp [navigation, hr, nextBlock, hnb, okBlock]

theorem sizeAt_put (ps : Positions) {d : Nat} (q : Nat) (hd : d ≤ 2) :
    sizeAt (ps.put d q) d = sizeAt ps d := by
  interval_cases d <;> rfl

theorem wrap_next_prev {p n : Nat} (hp : p < n) : ((p + 1) % n + n - 1) % n = p := by
  by_cases h : p + 1 = n
  · rw [h, Nat.mod_self, Nat.zero_add, Nat.mod_eq_of_lt (by omega)]
    omega
  · rw [Nat.mod_eq_of_lt (by omega : p + 1 < n)]
    have : p + 1 + n - 1 = p + n := by omega
    rw [this, Nat.add_mod_right, Nat.mod_eq_of_lt hp]

theorem wrap_prev_next {p n : Nat} (hp : p < n) : ((p + n - 1) % n + 1) % n = p := by
  by_cases h : p = 0
  · subst h
    rw [Nat.zero_add, Nat.mod_eq_of_lt (by omega : n - 1 < n)]
    have : n - 1 + 1 = n := by omega
    rw [this, Nat.mod_self]
  · have : p + n - 1 = (p - 1) + n := by omega
    rw [this, Nat.add_mod_right, Nat.mod_eq_of_lt (by omega : p - 1 < n)]
    have : p - 1 + 1 = p := by omega
    rw [this, Nat.mod_eq_of_lt hp]


/-! ## Reachability of the example states -/

theorem reachable_btReturnState : Reachable btReturnState :=
  reachable_of_run btReturnPath Reachable.init (by decide)

theorem reachable_jammingModeItemState : Reachable jammingModeItemState :=
  reachable_of_run jammingModeItemPath Reachable.init (by decide)

theorem reachable_standaloneState : Reachable standaloneState :=
  reachable_of_run standalonePath Reachable.init (by decide)

theorem reachable_bleItemState : Reachable bleItemState :=
  reachable_of_run bleItemPath Reachable.init (by decide)


/-! ## Repeated presses -/

theorem repeatStep_next {n : Nat} (hn : 0 < n) (hn256 : n < 256) :
    ∀ (k : Nat) (s : State) (p : Nat), s.menuDepth ≤ 2 →
      s.menuPositions.get? s.menuDepth = some p → p < n →
      ∃ s1, repeatStep (stepNext n) k s = some s1 ∧ s1.menuDepth = s.menuDepth ∧
        s1.menuPositions = s.menuPositions.put s.menuDepth ((p + k) % n) := by
  intro k
  induction k with
  | zero =>
    intro s p _ hp hlt
    exact ⟨s, rfl, rfl, by rw [Nat.add_zero, Nat.mod_eq_of_lt hlt, Positions.put_get? _ hp]⟩
  | succ k ih =>
    intro s p hd hp hlt
    have hq : (p + 1) % n < n := Nat.mod_lt _ hn
    have hmod : ((p + 1) % n) % 256 = (p + 1) % n := Nat.mod_eq_of_lt (by omega)
    obtain ⟨s2, hrep, hd2, hps2⟩ := ih
      { s with menuPositions := s.menuPositions.put s.menuDepth ((p + 1) % n),
               nextPressed := false, uiRefresh := true }
      ((p + 1) % n) hd (Positions.get?_put _ _ hd) hq
    refine ⟨s2, ?_, hd2, ?_⟩
    · simp only [repeatStep, stepNext_eq hd hp hn, hmod, Option.some_bind]
      exact hrep
    · rw [hps2]
      simp only [Positions.put_put]
      congr 1
      rw [Nat.mod_add_mod]
      congr 1
      omega

theorem repeatStep_prev {n : Nat} (hn : 0 < n) (hn256 : n < 256) :
    ∀ (k : Nat) (s : State) (p : Nat), s.menuDepth ≤ 2 →
      s.menuPositions.get? s.menuDepth = some p → p < n →
      ∃ s1, repeatStep (stepPrev n) k s = some s1 ∧ s1.menuDepth = s.menuDepth ∧
        s1.menuPositions = s.menuPositions.put s.menuDepth ((p + k * (n - 1)) % n) := by
  intro k
  induction k with
  | zero =>
    intro s p _ hp hlt
    exact ⟨s, rfl, rfl, by
      rw [Nat.zero_mul, Nat.add_zero, Nat.mod_eq_of_lt hlt, Positions.put_get? _ hp]⟩
  | succ k ih =>
    intro s p hd hp hlt
    have hq : (p + n - 1) % n < n := Nat.mod_lt _ hn
    have hmod : ((p + n - 1) % n) % 256 = (p + n - 1) % n := Nat.mod_eq_of_lt (by omega)
    obtain ⟨s2, hrep, hd2, hps2⟩ := ih
      { s with menuPositions := s.menuPositions.put s.menuDepth ((p + n - 1) % n),
               prevPressed := false, uiRefresh := true }
      ((p + n - 1) % n) hd (Positions.get?_put _ _ hd) hq
    refine ⟨s2, ?_, hd2, ?_⟩
    · simp only [repeatStep, stepPrev_eq hd hp hn, hmod, Option.some_bind]
      exact hrep
    · rw [hps2]
      simp only [Positions.put_put]
      congr 1
      rw [Nat.mod_add_mod]
      congr 1
      have : (k + 1) * (n - 1) = (n - 1) + k * (n - 1) := by ring
      omega

theorem run_next {n : Nat} {i : Input} (hi : i.next = true ∧ i.prev = false ∧ i.ok = false) :
    ∀ (k : Nat) (s : State) (p : Nat), CursorInv s → s.currentAction = none → noLatch s →
      s.menuPositions.get? s.menuDepth = some p → sizeAt s.menuPositions s.menuDepth = some n →
      ∃ s1, run s (List.replicate k i) = some s1 ∧ s1.menuDepth = s.menuDepth ∧
        s1.menuPositions = s.menuPositions.put s.menuDepth ((p + k) % n) := by
  intro k
  induction k with
  | zero =>
    intro s p hinv _ _ hp hn
    obtain ⟨p1, n1, -, hn1, hp1, hlt, -⟩ := currentMenuSize_of_inv hinv
    rw [hn] at hn1
    rw [hp] at hp1
    cases hn1
    cases hp1
    exact ⟨s, rfl, rfl, by rw [Nat.add_zero, Nat.mod_eq_of_lt hlt, Positions.put_get? _ hp]⟩
  | succ k ih =>
    intro s p hinv hact hl hp hn
    obtain ⟨hl1, hl2, hl3⟩ := hl
    have hin : onlyNext s i := by
      simp [onlyNext, hl1, hl2, hl3, hi.1, hi.2.1, hi.2.2]
    obtain ⟨p1, n1, evs, hp1, hn1, hlt, hloop⟩ := loop_onlyNext hinv hact hin
    rw [hn] at hn1
    rw [hp] at hp1
    cases hn1
    cases hp1
    have hq : (p + 1) % n < n := Nat.mod_lt _ (by omega)
    obtain ⟨s2, hrun, hd2, hps2⟩ := ih
      { s with menuPositions := s.menuPositions.put s.menuDepth ((p + 1) % n),
               uiRefresh := true, okPressed := false, nextPressed := false,
               prevPressed := false }
      ((p + 1) % n)
      (cursorInv_congr rfl rfl (cursorInv_put hinv hn hq)) hact ⟨rfl, rfl, rfl⟩
      (Positions.get?_put _ _ hinv.1) (by simp only [sizeAt_put _ _ hinv.1]; exact hn)
    refine ⟨s2, ?_, hd2, ?_⟩
    · simp only [List.replicate_succ, run, hloop]
      exact hrun
    · rw [hps2]
      simp only [Positions.put_put]
      congr 1
      rw [Nat.mod_add_mod]
      congr 1
      omega

theorem run_prev {n : Nat} {i : Input} (hi : i.prev = true ∧ i.next = false ∧ i.ok = false) :
    ∀ (k : Nat) (s : State) (p : Nat), CursorInv s → s.currentAction = none → noLatch s →
      s.menuPositions.get? s.menuDepth = some p → sizeAt s.menuPositions s.menuDepth = some n →
      ∃ s1, run s (List.replicate k i) = some s1 ∧ s1.menuDepth = s.menuDepth ∧
        s1.menuPositions = s.menuPositions.put s.menuDepth ((p + k * (n - 1)) % n) := by
  intro k
  induction k with
  | zero =>
    intro s p hinv _ _ hp hn
    obtain ⟨p1, n1, -, hn1, hp1, hlt, -⟩ := currentMenuSize_of_inv hinv
    rw [hn] at hn1
    rw [hp] at hp1
    cases hn1
    cases hp1
    exact ⟨s, rfl, rfl, by
      rw [Nat.zero_mul, Nat.add_zero, Nat.mod_eq_of_lt hlt, Positions.put_get? _ hp]⟩
  | succ k ih =>
    intro s p hinv hact hl hp hn
    obtain ⟨hl1, hl2, hl3⟩ := hl
    have hin : onlyPrev s i := by
      simp [onlyPrev, hl1, hl2, hl3, hi.1, hi.2.1, hi.2.2]
    obtain ⟨p1, n1, evs, hp1, hn1, hlt, hloop⟩ := loop_onlyPrev hinv hact hin
    rw [hn] at hn1
    rw [hp] at hp1
    cases hn1
    cases hp1
    have hq : (p + n - 1) % n < n := Nat.mod_lt _ (by omega)
    obtain ⟨s2, hrun, hd2, hps2⟩ := ih
      { s with menuPositions := s.menuPositions.put s.menuDepth ((p + n - 1) % n),
               uiRefresh := true, okPressed := false, nextPressed := false,
               prevPressed := false }
      ((p + n - 1) % n)
      (cursorInv_congr rfl rfl (cursorInv_put hinv hn hq)) hact ⟨rfl, rfl, rfl⟩
      (Positions.get?_put _ _ hinv.1) (by simp only [sizeAt_put _ _ hinv.1]; exact hn)
    refine ⟨s2, ?_, hd2, ?_⟩
    · simp only [List.replicate_succ, run, hloop]
      exact hrun
    · rw [hps2]
      simp only [Positions.put_put]
      congr 1
      rw [Nat.mod_add_mod]
      congr 1
      have : (k + 1) * (n - 1) = (n - 1) + k * (n - 1) := by ring
      omega

/-! ## The claims -/

/-- C1. Cursor invariant: in every state reachable from the initial state by
any sequence of `loop()` iterations, the depth is at most 2 and, for every
`d ≤ depth`, `position[d]` is below the size of the level selected by the
positions before it, that size being positive. -/
theorem cursor_invariant_reachable (s : State) (h : Reachable s) :
    s.menuDepth ≤ 2 ∧
    ∀ d, d ≤ s.menuDepth →
      ∃ p n, s.menuPositions.get? d = some p ∧ sizeAt s.menuPositions d = some n ∧
        0 < n ∧ p < n :=
  reachable_inv h

theorem cursor_invariant_reachable_witness :
    standaloneState.menuDepth ≤ 2 ∧
    ∀ d, d ≤ standaloneState.menuDepth →
      ∃ p n, standaloneState.menuPositions.get? d = some p ∧
        sizeAt standaloneState.menuPositions d = some n ∧ 0 < n ∧ p < n :=
  cursor_invariant_reachable standaloneState reachable_standaloneState

/-- C2. Next then Previous, and Previous then Next, restore the cursor. First
part: for every level size `1 ≤ n` (a `uint8_t`) and position `p < n`, the body
of the Next block followed by the body of the Previous block (and the other
order) leaves depth and all positions as they were. Second part: the same for
two full iterations of `loop()` on the shipped tables, from any state that
satisfies the cursor invariant and has no action active. -/
theorem next_prev_roundtrip :
    (∀ (n p : Nat) (s : State), 1 ≤ n → n < 256 → s.menuDepth ≤ 2 →
        s.menuPositions.get? s.menuDepth = some p → p < n →
        (∃ s1 s2, stepNext n s = some s1 ∧ stepPrev n s1 = some s2 ∧
            s2.menuDepth = s.menuDepth ∧ s2.menuPositions = s.menuPositions) ∧
        (∃ s1 s2, stepPrev n s = some s1 ∧ stepNext n s1 = some s2 ∧
            s2.menuDepth = s.menuDepth ∧ s2.menuPositions = s.menuPositions)) ∧
    (∀ (s : State) (inpA inpB : Input), CursorInv s → s.currentAction = none →
        (onlyNext s inpA → inpB.prev = true → inpB.next = false → inpB.ok = false →
          ∃ s1 e1 s2 e2, loop s inpA = Outcome.ret (s1, e1) ∧
            loop s1 inpB = Outcome.ret (s2, e2) ∧
            s2.menuDepth = s.menuDepth ∧ s2.menuPositions = s.menuPositions) ∧
        (onlyPrev s inpA → inpB.next = true → inpB.prev = false → inpB.ok = false →
          ∃ s1 e1 s2 e2, loop s inpA = Outcome.ret (s1, e1) ∧
            loop s1 inpB = Outcome.ret (s2, e2) ∧
            s2.menuDepth = s.menuDepth ∧ s2.menuPositions = s.menuPositions)) := by
  refine ⟨fun n p s hn hn256 hd hp hlt => ⟨?_, ?_⟩, fun s inpA inpB hinv hact => ⟨?_, ?_⟩⟩
  · have hq : (p + 1) % n < n := Nat.mod_lt _ (by omega)
    have hmod : ((p + 1) % n) % 256 = (p + 1) % n := Nat.mod_eq_of_lt (by omega)
    have hmod2 : p % 256 = p := Nat.mod_eq_of_lt (by omega)
    refine ⟨_, _, stepNext_eq hd hp (by omega), stepPrev_eq (p := (p + 1) % n) hd ?_ (by omega), rfl, ?_⟩
    · simp only [hmod]
      exact Positions.get?_put _ _ hd
    · simp only [hmod, Positions.put_put, wrap_next_prev hlt, hmod2]
      exact Positions.put_get? _ hp
  · have hq : (p + n - 1) % n < n := Nat.mod_lt _ (by omega)
    have hmod : ((p + n - 1) % n) % 256 = (p + n - 1) % n := Nat.mod_eq_of_lt (by omega)
    have hmod2 : p % 256 = p := Nat.mod_eq_of_lt (by omega)
    refine ⟨_, _, stepPrev_eq hd hp (by omega), stepNext_eq (p := (p + n - 1) % n) hd ?_ (by omega), rfl, ?_⟩
    · simp only [hmod]
      exact Positions.get?_put _ _ hd
    · simp only [hmod, Positions.put_put, wrap_prev_next hlt, hmod2]
      exact Positions.put_get? _ hp
  · intro hin hb1 hb2 hb3
    obtain ⟨p, n, evs, hp, hn, hlt, hloop⟩ := loop_onlyNext hinv hact hin
    have hq : (p + 1) % n < n := Nat.mod_lt _ (by omega)
    have hinv1 := cursorInv_put hinv hn hq
    obtain ⟨p2, n2, evs2, hp2, hn2, hlt2, hloop2⟩ :=
      loop_onlyPrev (s := { s with
          menuPositions := s.menuPositions.put s.menuDepth ((p + 1) % n),
          uiRefresh := true, okPressed := false, nextPressed := false, prevPressed := false })
        (i := inpB) (cursorInv_congr rfl rfl hinv1) hact (by simp [onlyPrev, hb1, hb2, hb3])
    simp only [sizeAt_put _ _ hinv.1, hn, Option.some.injEq] at hn2
    simp only [Positions.get?_put _ _ hinv.1, Option.some.injEq] at hp2
    subst hn2 hp2
    refine ⟨_, _, _, _, hloop, hloop2, rfl, ?_⟩
    simp only [Positions.put_put, wrap_next_prev hlt]
    exact Positions.put_get? _ hp
  · intro hin hb1 hb2 hb3
    obtain ⟨p, n, evs, hp, hn, hlt, hloop⟩ := loop_onlyPrev hinv hact hin
    have hq : (p + n - 1) % n < n := Nat.mod_lt _ (by omega)
    have hinv1 := cursorInv_put hinv hn hq
    obtain ⟨p2, n2, evs2, hp2, hn2, hlt2, hloop2⟩ :=
      loop_onlyNext (s := { s with
          menuPositions := s.menuPositions.put s.menuDepth ((p + n - 1) % n),
          uiRefresh := true, okPressed := false, nextPressed := false, prevPressed := false })
        (i := inpB) (cursorInv_congr rfl rfl hinv1) hact (by simp [onlyNext, hb1, hb2, hb3])
    simp only [sizeAt_put _ _ hinv.1, hn, Option.some.injEq] at hn2
    simp only [Positions.get?_put _ _ hinv.1, Option.some.injEq] at hp2
    subst hn2 hp2
    refine ⟨_, _, _, _, hloop, hloop2, rfl, ?_⟩
    simp only [Positions.put_put, wrap_prev_next hlt]
    exact Positions.put_get? _ hp


theorem next_prev_roundtrip_witness :
    ((∃ s1 s2, stepNext 4 btReturnState = some s1 ∧ stepPrev 4 s1 = some s2 ∧
          s2.menuDepth = btReturnState.menuDepth ∧
          s2.menuPositions = btReturnState.menuPositions) ∧
      (∃ s1 s2, stepPrev 4 btReturnState = some s1 ∧ stepNext 4 s1 = some s2 ∧
          s2.menuDepth = btReturnState.menuDepth ∧
          s2.menuPositions = btReturnState.menuPositions)) ∧
    (∃ s1 e1 s2 e2, loop btReturnState pressNext = Outcome.ret (s1, e1) ∧
        loop s1 pressPrev = Outcome.ret (s2, e2) ∧
        s2.menuDepth = btReturnState.menuDepth ∧
        s2.menuPositions = btReturnState.menuPositions) ∧
    (∃ s1 e1 s2 e2, loop btReturnState pressPrev = Outcome.ret (s1, e1) ∧
        loop s1 pressNext = Outcome.ret (s2, e2) ∧
        s2.menuDepth = btReturnState.menuDepth ∧
        s2.menuPositions = btReturnState.menuPositions) :=
  ⟨next_prev_roundtrip.1 4 3 btReturnState (by decide) (by decide) (by decide) rfl (by decide),
   (next_prev_roundtrip.2 btReturnState pressNext pressPrev
      (reachable_inv reachable_btReturnState) rfl).1 ⟨rfl, rfl, rfl⟩ rfl rfl rfl,
   (next_prev_roundtrip.2 btReturnState pressPrev pressNext
      (reachable_inv reachable_btReturnState) rfl).2 ⟨rfl, rfl, rfl⟩ rfl rfl rfl⟩

/-- C3. Circular wrap. First part: for every level size `1 ≤ n` (a `uint8_t`)
and start position `p < n`, `n` executions of the body of the Next block, and
`n` executions of the body of the Previous block, restore depth and positions.
Second part: the same for `n` iterations of `loop()` with only Next (only
Previous) pressed, on every level of the shipped tables. Third part: from the
fresh state, on the 8-item root level, 8 Next presses return to
`position[0] = 0`. -/
theorem full_cycle_returns :
    (∀ (n p : Nat) (s : State), 1 ≤ n → n < 256 → s.menuDepth ≤ 2 →
        s.menuPositions.get? s.menuDepth = some p → p < n →
        (∃ s1, repeatStep (stepNext n) n s = some s1 ∧ s1.menuDepth = s.menuDepth ∧
            s1.menuPositions = s.menuPositions) ∧
        (∃ s1, repeatStep (stepPrev n) n s = some s1 ∧ s1.menuDepth = s.menuDepth ∧
            s1.menuPositions = s.menuPositions)) ∧
    (∀ (s : State) (n : Nat), CursorInv s → s.currentAction = none → noLatch s →
        sizeAt s.menuPositions s.menuDepth = some n →
        (∃ s1, run s (List.replicate n pressNext) = some s1 ∧ s1.menuDepth = s.menuDepth ∧
            s1.menuPositions = s.menuPositions) ∧
        (∃ s1, run s (List.replicate n pressPrev) = some s1 ∧ s1.menuDepth = s.menuDepth ∧
            s1.menuPositions = s.menuPositions)) ∧
    (sizeAt initialState.menuPositions 0 = some 8 ∧
      ∃ s1, run initialState (List.replicate 8 pressNext) = some s1 ∧ s1.menuDepth = 0 ∧
        s1.menuPositions.get? 0 = some 0) := by
  refine ⟨fun n p s hn hn256 hd hp hlt => ⟨?_, ?_⟩, fun s n hinv hact hl hsz => ?_, rfl, ?_⟩
  · obtain ⟨s1, h1, h2, h3⟩ := repeatStep_next (by omega) hn256 n s p hd hp hlt
    refine ⟨s1, h1, h2, ?_⟩
    rw [h3, Nat.add_mod_right, Nat.mod_eq_of_lt hlt, Positions.put_get? _ hp]
  · obtain ⟨s1, h1, h2, h3⟩ := repeatStep_prev (by omega) hn256 n s p hd hp hlt
    refine ⟨s1, h1, h2, ?_⟩
    rw [h3, Nat.add_mul_mod_self_left, Nat.mod_eq_of_lt hlt, Positions.put_get? _ hp]
  · obtain ⟨p, n1, -, hn1, hp, hlt, -⟩ := currentMenuSize_of_inv hinv
    rw [hsz] at hn1
    cases hn1
    constructor
    · obtain ⟨s1, h1, h2, h3⟩ :=
        run_next (i := pressNext) ⟨rfl, rfl, rfl⟩ n s p hinv hact hl hp hsz
      refine ⟨s1, h1, h2, ?_⟩
      rw [h3, Nat.add_mod_right, Nat.mod_eq_of_lt hlt, Positions.put_get? _ hp]
    · obtain ⟨s1, h1, h2, h3⟩ :=
        run_prev (i := pressPrev) ⟨rfl, rfl, rfl⟩ n s p hinv hact hl hp hsz
      refine ⟨s1, h1, h2, ?_⟩
      rw [h3, Nat.add_mul_mod_self_left, Nat.mod_eq_of_lt hlt, Positions.put_get? _ hp]
  · exact ⟨initialState, by decide, rfl, rfl⟩

theorem full_cycle_returns_witness :
    ((∃ s1, repeatStep (stepNext 4) 4 btReturnState = some s1 ∧
          s1.menuDepth = btReturnState.menuDepth ∧
          s1.menuPositions = btReturnState.menuPositions) ∧
      (∃ s1, repeatStep (stepPrev 4) 4 btReturnState = some s1 ∧
          s1.menuDepth = btReturnState.menuDepth ∧
          s1.menuPositions = btReturnState.menuPositions)) ∧
    ((∃ s1, run standaloneState (List.replicate 2 pressNext) = some s1 ∧
          s1.menuDepth = standaloneState.menuDepth ∧
          s1.menuPositions = standaloneState.menuPositions) ∧
      (∃ s1, run standaloneState (List.replicate 2 pressPrev) = some s1 ∧
          s1.menuDepth = standaloneState.menuDepth ∧
          s1.menuPositions = standaloneState.menuPositions)) :=
  ⟨full_cycle_returns.1 4 3 btReturnState (by decide) (by decide) (by decide) rfl (by decide),
   full_cycle_returns.2.1 standaloneState 2 (reachable_inv reachable_standaloneState) rfl
      ⟨rfl, rfl, rfl⟩ rfl⟩


/-! ## Ticks in which OK is handled -/

/-- On the shipped tables the return item of a depth-1 level owns no submenu. -/
theorem not_hasChild_of_return {s : State} (h : CursorInv s) (hd : s.menuDepth = 1)
    (hl : atLastIndex s) : ¬ hasChild s := by
  have hc := cursorInv_cases h
  obtain ⟨r, d, ⟨a, b, c⟩, act, ok, nx, pv, t1, t2⟩ := s
  simp only at hc hd
  subst hd
  obtain ⟨p, n, hp, hn, hpn⟩ := hl
  simp only [Positions.get?, Option.some.injEq] at hp
  subst hp
  rcases hc with ⟨h0, -⟩ | ⟨-, ⟨rfl, h1⟩ | ⟨rfl, h1⟩ | ⟨rfl, h1⟩ | ⟨rfl, h1⟩⟩ | ⟨h0, -⟩
  · omega
  · interval_cases b <;> simp [hasChild, levelAt, depth_2_menuTree, depth_2_btJam]
  · interval_cases b <;> simp [hasChild, levelAt, depth_2_menuTree, depth_2_wifiJam]
  · interval_cases b <;> simp [hasChild, levelAt, depth_2_menuTree, depth_2_droneJam]
  · simp [sizeAt, levelAt, depth_1_menuTree, menu_settings] at hn
    subst hn
    obtain rfl : b = 3 := by omega
    simp [hasChild, levelAt, depth_2_menuTree, depth_2_settings]
  · omega

/-- A tick with no action active and OK as the only pressed button returns and
takes exactly one of the three branches of the OK block. -/
theorem loop_ok_cases {s : State} {inp : Input} (h : CursorInv s) (hact : s.currentAction = none)
    (hin : onlyOk s inp) :
    ∃ s1 evs, loop s inp = Outcome.ret (s1, evs) ∧
      ((s.menuDepth = 1 ∧ atLastIndex s ∧
          s1 = { s with uiRefresh := true, okPressed := false, nextPressed := false,
                        prevPressed := false, menuDepth := 0,
                        menuPositions := s.menuPositions.put 1 0 }) ∨
       (¬ (s.menuDepth = 1 ∧ atLastIndex s) ∧ hasChild s ∧ s.menuDepth < 2 ∧
          s1 = { s with uiRefresh := true, okPressed := false, nextPressed := false,
                        prevPressed := false, menuDepth := s.menuDepth + 1,
                        menuPositions := s.menuPositions.put (s.menuDepth + 1) 0 }) ∨
       (¬ (s.menuDepth = 1 ∧ atLastIndex s) ∧ ¬ hasChild s ∧
          s1 = { s with uiRefresh := false, okPressed := false, nextPressed := false,
                        prevPressed := false,
                        currentAction := some ((boundAction s).getD MenuAction.notImplemented) })) := by
  obtain ⟨e1, hloop⟩ := loop_onlyOk h hact hin
  obtain ⟨s1, hok, hcase⟩ := okBlock_of_inv
    (cursorInv_congr rfl rfl h :
      CursorInv { s with uiRefresh := false, okPressed := true, nextPressed := false,
                         prevPressed := false }) rfl
  refine ⟨s1, e1 ++ [Event.okHandled], hloop _ _ hok, ?_⟩
  rcases hcase with ⟨hd, hl, rfl⟩ | ⟨hn, hch, hd, rfl⟩ | ⟨hn, hch, rfl⟩
  · exact Or.inl ⟨hd, hl, rfl⟩
  · exact Or.inr (Or.inl ⟨hn, hch, hd, rfl⟩)
  · exact Or.inr (Or.inr ⟨hn, hch, rfl⟩)


/-- C4, as stated, fails at depth 2. The state "Settings > Jamming Mode" with
the selection on the last index (item "Standalone") is reachable, at depth 2,
with no action active; an OK press there keeps depth 2 and position 1 and
starts `action_jammingStandalone`. -/
theorem return_slot_depth2_counterexample :
    Reachable standaloneState ∧ standaloneState.currentAction = none ∧
    standaloneState.menuDepth = 2 ∧ atLastIndex standaloneState ∧
    onlyOk standaloneState pressOk ∧
    ∃ s1 evs, loop standaloneState pressOk = Outcome.ret (s1, evs) ∧ s1.menuDepth = 2 ∧
      s1.menuPositions.get? 2 = some 1 ∧
      s1.currentAction = some MenuAction.jammingStandalone :=
  ⟨reachable_standaloneState, rfl, rfl, ⟨1, 2, rfl, rfl, rfl⟩, ⟨rfl, rfl, rfl⟩,
    { standaloneState with uiRefresh := false,
                           currentAction := some MenuAction.jammingStandalone },
    _, rfl, rfl, rfl, rfl⟩

/-- C4, amended to depth 1. For every reachable state at depth 1 in which
`position[1]` is the last index of the current level and no action is active,
handling an OK press yields depth 0 with `position[1]` reset to 0 and starts
no action. -/
theorem return_slot_depth1 (s : State) (inp : Input) (h : Reachable s) (hd : s.menuDepth = 1)
    (hl : atLastIndex s) (hact : s.currentAction = none) (hin : onlyOk s inp) :
    ∃ s1 evs, loop s inp = Outcome.ret (s1, evs) ∧ s1.menuDepth = 0 ∧
      s1.menuPositions.get? 1 = some 0 ∧ s1.currentAction = none := by
  obtain ⟨s1, evs, hloop, hcase⟩ := loop_ok_cases (reachable_inv h) hact hin
  refine ⟨s1, evs, hloop, ?_⟩
  rcases hcase with ⟨-, -, rfl⟩ | ⟨hn, -⟩ | ⟨hn, -⟩
  · exact ⟨rfl, rfl, hact⟩
  · exact absurd ⟨hd, hl⟩ hn
  · exact absurd ⟨hd, hl⟩ hn

theorem return_slot_depth1_witness :
    ∃ s1 evs, loop btReturnState pressOk = Outcome.ret (s1, evs) ∧ s1.menuDepth = 0 ∧
      s1.menuPositions.get? 1 = some 0 ∧ s1.currentAction = none :=
  return_slot_depth1 btReturnState pressOk reachable_btReturnState rfl ⟨3, 4, rfl, rfl, rfl⟩ rfl
    ⟨rfl, rfl, rfl⟩

/-- C5. For every reachable depth-1 state with no action active whose
`position[1]` is the last index of the current submenu, handling an OK press
yields depth 0 with `position[1] = 0`, leaves `position[0]` unchanged, leaves
the active action absent and sets the refresh flag. -/
theorem return_from_submenu (s : State) (inp : Input) (h : Reachable s) (hd : s.menuDepth = 1)
    (hl : atLastIndex s) (hact : s.currentAction = none) (hin : onlyOk s inp) :
    ∃ s1 evs, loop s inp = Outcome.ret (s1, evs) ∧ s1.menuDepth = 0 ∧
      s1.menuPositions.get? 1 = some 0 ∧
      s1.menuPositions.get? 0 = s.menuPositions.get? 0 ∧
      s1.currentAction = none ∧ s1.uiRefresh = true := by
  obtain ⟨s1, evs, hloop, hcase⟩ := loop_ok_cases (reachable_inv h) hact hin
  refine ⟨s1, evs, hloop, ?_⟩
  rcases hcase with ⟨-, -, rfl⟩ | ⟨hn, -⟩ | ⟨hn, -⟩
  · exact ⟨rfl, rfl, rfl, hact, rfl⟩
  · exact absurd ⟨hd, hl⟩ hn
  · exact absurd ⟨hd, hl⟩ hn

theorem return_from_submenu_witness :
    sizeAt btReturnState.menuPositions 1 = some 4 ∧
    btReturnState.menuPositions.get? 1 = some 3 ∧
    ∃ s1 evs, loop btReturnState pressOk = Outcome.ret (s1, evs) ∧ s1.menuDepth = 0 ∧
      s1.menuPositions.get? 1 = some 0 ∧
      s1.menuPositions.get? 0 = btReturnState.menuPositions.get? 0 ∧
      s1.currentAction = none ∧ s1.uiRefresh = true :=
  ⟨rfl, rfl,
    return_from_submenu btReturnState pressOk reachable_btReturnState rfl ⟨3, 4, rfl, rfl, rfl⟩
      rfl ⟨rfl, rfl, rfl⟩⟩

/-- C6. First part: for every reachable state at depth `d < 2` with no action
active whose selected item owns a submenu, handling an OK press yields depth
`d + 1` with `position[d + 1] = 0`, leaves `position[0..d]` unchanged and
starts no action. Second part: from a reachable state at depth 2 with no
action active, an iteration of `loop()` (whatever buttons are pressed, OK
included) returns with a depth that is not larger. -/
theorem enter_submenu :
    (∀ (s : State) (inp : Input), Reachable s → s.menuDepth < 2 → s.currentAction = none →
        hasChild s → onlyOk s inp →
        ∃ s1 evs, loop s inp = Outcome.ret (s1, evs) ∧ s1.menuDepth = s.menuDepth + 1 ∧
          s1.menuPositions.get? (s.menuDepth + 1) = some 0 ∧
          (∀ i, i ≤ s.menuDepth → s1.menuPositions.get? i = s.menuPositions.get? i) ∧
          s1.currentAction = none) ∧
    (∀ (s : State) (inp : Input), Reachable s → s.menuDepth = 2 → s.currentAction = none →
        ∃ s1 evs, loop s inp = Outcome.ret (s1, evs) ∧ s1.menuDepth ≤ s.menuDepth) := by
  constructor
  · intro s inp h hd hact hch hin
    obtain ⟨s1, evs, hloop, hcase⟩ := loop_ok_cases (reachable_inv h) hact hin
    refine ⟨s1, evs, hloop, ?_⟩
    rcases hcase with ⟨hd1, hl, -⟩ | ⟨-, -, -, rfl⟩ | ⟨-, hn, -⟩
    · exact absurd hch (not_hasChild_of_return (reachable_inv h) hd1 hl)
    · refine ⟨rfl, Positions.get?_put _ _ (by omega), ?_, hact⟩
      intro i hi
      obtain ⟨r, d, ⟨a, b, c⟩, act, ok, nx, pv, t1, t2⟩ := s
      simp only at hd hi ⊢
      interval_cases d <;> interval_cases i <;> rfl
    · exact absurd hch hn
  · intro s inp h hd hact
    have hS : CursorInv s := reachable_inv h
    have hP : CursorInv (pollButtons s inp.ok inp.next inp.prev) := cursorInv_congr rfl rfl hS
    obtain ⟨s1, evs, hnav, hinv1, -⟩ := navigation_of_inv inp hP
    refine ⟨s1, evs, ?_, ?_⟩
    · rw [loop_idle inp hact, hnav]
    · rw [hd]
      exact hinv1.1

theorem enter_submenu_witness :
    (∃ s1 evs, loop jammingModeItemState pressOk = Outcome.ret (s1, evs) ∧
        s1.menuDepth = jammingModeItemState.menuDepth + 1 ∧
        s1.menuPositions.get? (jammingModeItemState.menuDepth + 1) = some 0 ∧
        (∀ i, i ≤ jammingModeItemState.menuDepth →
          s1.menuPositions.get? i = jammingModeItemState.menuPositions.get? i) ∧
        s1.currentAction = none) ∧
    (∃ s1 evs, loop standaloneState pressOk = Outcome.ret (s1, evs) ∧
        s1.menuDepth ≤ standaloneState.menuDepth) :=
  ⟨enter_submenu.1 jammingModeItemState pressOk reachable_jammingModeItemState (by decide) rfl
      rfl ⟨rfl, rfl, rfl⟩,
   enter_submenu.2 standaloneState pressOk reachable_standaloneState rfl rfl⟩

/-- C7. For every reachable state with no action active whose selection is
neither a return slot nor an item owning a submenu, handling an OK press makes
one action active: the action bound to the full path in the action tables, or
`action_notImplemented` when the table entry is `nullptr`; depth and all
positions are unchanged. -/
theorem leaf_starts_action (s : State) (inp : Input) (h : Reachable s)
    (hact : s.currentAction = none) (hret : ¬ isReturnSlot s) (hch : ¬ hasChild s)
    (hin : onlyOk s inp) :
    ∃ s1 evs, loop s inp = Outcome.ret (s1, evs) ∧
      s1.currentAction = some ((boundAction s).getD MenuAction.notImplemented) ∧
      s1.menuDepth = s.menuDepth ∧ s1.menuPositions = s.menuPositions := by
  obtain ⟨s1, evs, hloop, hcase⟩ := loop_ok_cases (reachable_inv h) hact hin
  refine ⟨s1, evs, hloop, ?_⟩
  rcases hcase with ⟨hd1, hl, -⟩ | ⟨-, hc, -⟩ | ⟨-, -, rfl⟩
  · exact absurd ⟨by omega, hl⟩ hret
  · exact absurd hc hch
  · exact ⟨rfl, rfl, rfl⟩

theorem leaf_starts_action_witness :
    boundAction bleItemState = some MenuAction.bleJam ∧
    ∃ s1 evs, loop bleItemState pressOk = Outcome.ret (s1, evs) ∧
      s1.currentAction = some ((boundAction bleItemState).getD MenuAction.notImplemented) ∧
      s1.menuDepth = bleItemState.menuDepth ∧
      s1.menuPositions = bleItemState.menuPositions :=
  ⟨rfl,
    leaf_starts_action bleItemState pressOk reachable_bleItemState rfl
      (fun hr => absurd hr.1 (by decide)) (by unfold hasChild; decide) ⟨rfl, rfl, rfl⟩⟩


/-! ## Ticks with an action active -/

theorem reachable_btNoticeState : Reachable btNoticeState :=
  reachable_of_run btNoticePath Reachable.init (by decide)

/-- Every action other than `action_factorySettings` returns from each call. -/
theorem callAction_returns {a : MenuAction} (s : State) (inp : Input)
    (ha : a ≠ MenuAction.factorySettings) :
    ∃ s2 done aevs, callAction a s inp = Outcome.ret (s2, done, aevs) := by
  cases a <;> first
    | exact absurd rfl ha
    | exact ⟨_, _, _, rfl⟩

/-- A tick that starts with an action active and returns consists of one call
of that action. -/
theorem loop_action_trace {s s1 : State} {a : MenuAction} {inp : Input} {evs : List Event}
    (hd : s.menuDepth ≤ 2) (hact : s.currentAction = some a)
    (hl : loop s inp = Outcome.ret (s1, evs)) :
    ∃ s2 done aevs,
      callAction a (pollButtons s inp.ok inp.next inp.prev) inp = Outcome.ret (s2, done, aevs) ∧
      evs = aevs ++ [Event.actionCall a done] ∧
      (∀ e ∈ aevs, e.isNavigation = false ∧ e.isActionCall = false) ∧
      (done = false → s1.menuDepth = s.menuDepth ∧ s1.menuPositions = s.menuPositions ∧
        s1.currentAction = some a) := by
  rw [loop_action inp hact] at hl
  cases hcall : callAction a (pollButtons s inp.ok inp.next inp.prev) inp with
  | fault => simp [actionBranch, hcall] at hl
  | restart p => simp [actionBranch, hcall] at hl
  | blocked => simp [actionBranch, hcall] at hl
  | ret r =>
    obtain ⟨s2, done, aevs⟩ := r
    obtain ⟨h1, h2, h3, -, h5⟩ := callAction_frame hcall
    rw [actionBranch_of_ret (s := pollButtons s inp.ok inp.next inp.prev) hd hcall] at hl
    simp only [Outcome.ret.injEq, Prod.mk.injEq] at hl
    obtain ⟨hs1, hevs⟩ := hl
    refine ⟨s2, done, aevs, rfl, hevs.symm, h5, ?_⟩
    intro hdone
    subst hdone
    simp only [Bool.false_eq_true, if_false] at hs1
    subst hs1
    exact ⟨h1, h2, by rw [h3]; exact hact⟩

/-- C8. Mutual exclusion per frame, for every reachable state. If an action is
active, an iteration of `loop()` that returns consists of exactly one call of
that action: its events are display calls of the action followed by the
return of the action, none is a menu rendering or a Next/Previous/OK block, and
when the action reports Running the depth, the positions and the active
action are unchanged; every action but the blocking factory-reset dialog does
return. If no action is active, the iteration returns, calls no action, leaves
the statics of the actions alone, and an action it starts is called in the
next iteration. -/
theorem tick_mutual_exclusion (s : State) (inp : Input) (h : Reachable s) :
    (∀ a, s.currentAction = some a →
        (∀ s1 evs, loop s inp = Outcome.ret (s1, evs) →
          ∃ s2 done aevs,
            callAction a (pollButtons s inp.ok inp.next inp.prev) inp
              = Outcome.ret (s2, done, aevs) ∧
            evs = aevs ++ [Event.actionCall a done] ∧
            (∀ e ∈ aevs, e.isNavigation = false ∧ e.isActionCall = false) ∧
            (done = false → s1.menuDepth = s.menuDepth ∧
              s1.menuPositions = s.menuPositions ∧ s1.currentAction = some a)) ∧
        (a ≠ MenuAction.factorySettings → ∃ s1 evs, loop s inp = Outcome.ret (s1, evs))) ∧
    (s.currentAction = none →
        ∃ s1 evs, loop s inp = Outcome.ret (s1, evs) ∧
          (∀ e ∈ evs, e.isActionCall = false) ∧
          s1.notImplemented_startTime = s.notImplemented_startTime ∧
          s1.about_startTime = s.about_startTime ∧
          (∀ a, s1.currentAction = some a →
            ∀ inp2 s2 evs2, loop s1 inp2 = Outcome.ret (s2, evs2) →
              ∃ done aevs, evs2 = aevs ++ [Event.actionCall a done] ∧
                ∀ e ∈ aevs, e.isActionCall = false)) := by
  have hinv : CursorInv s := reachable_inv h
  refine ⟨fun a hact => ⟨fun s1 evs hl => loop_action_trace hinv.1 hact hl, fun ha => ?_⟩,
    fun hact => ?_⟩
  · obtain ⟨s2, done, aevs, hcall⟩ :=
      callAction_returns (pollButtons s inp.ok inp.next inp.prev) inp ha
    exact ⟨_, _, by rw [loop_action inp hact]; exact actionBranch_of_ret hinv.1 hcall⟩
  · have hP : CursorInv (pollButtons s inp.ok inp.next inp.prev) := cursorInv_congr rfl rfl hinv
    obtain ⟨s1, evs, hnav, hinv1, ht1, ht2, hev⟩ := navigation_of_inv inp hP
    have hloop : loop s inp = Outcome.ret (s1, evs) := by rw [loop_idle inp hact, hnav]
    refine ⟨s1, evs, hloop, ?_, ht1, ht2, ?_⟩
    · intro e he
      cases e <;> first
        | rfl
        | exact absurd he (hev _ _)
    · intro a ha inp2 s2 evs2 hl2
      obtain ⟨s3, done, aevs, -, hevs, hnone, -⟩ := loop_action_trace hinv1.1 ha hl2
      exact ⟨done, aevs, hevs, fun e he => (hnone e he).2⟩

theorem tick_mutual_exclusion_witness :
    (∃ s1 evs, loop btNoticeState { clock := 1000 } = Outcome.ret (s1, evs)) ∧
    (∃ s1 evs, loop bleItemState pressOk = Outcome.ret (s1, evs) ∧
        (∀ e ∈ evs, e.isActionCall = false) ∧
        s1.notImplemented_startTime = bleItemState.notImplemented_startTime ∧
        s1.about_startTime = bleItemState.about_startTime ∧
        (∀ a, s1.currentAction = some a →
          ∀ inp2 s2 evs2, loop s1 inp2 = Outcome.ret (s2, evs2) →
            ∃ done aevs, evs2 = aevs ++ [Event.actionCall a done] ∧
              ∀ e ∈ aevs, e.isActionCall = false)) :=
  ⟨((tick_mutual_exclusion btNoticeState { clock := 1000 } reachable_btNoticeState).1
      MenuAction.btChannelList rfl).2 (by decide),
   (tick_mutual_exclusion bleItemState pressOk reachable_bleItemState).2 rfl⟩

/-- C9. When the call of the active action returns Complete, the same
iteration of `loop()` clears the active action, sets the refresh flag and pops
one level: at depth `d > 0` the new depth is `d - 1`, `position[d]` is 0 and
`position[0..d-1]` are unchanged; at depth 0 depth and positions are unchanged. -/
theorem action_complete_pops (s : State) (a : MenuAction) (inp : Input) (s2 : State)
    (aevs : List Event) (h : Reachable s) (hact : s.currentAction = some a)
    (hdone : callAction a (pollButtons s inp.ok inp.next inp.prev) inp
      = Outcome.ret (s2, true, aevs)) :
    ∃ s1 evs, loop s inp = Outcome.ret (s1, evs) ∧ s1.currentAction = none ∧
      s1.uiRefresh = true ∧
      (0 < s.menuDepth →
        s1.menuDepth = s.menuDepth - 1 ∧ s1.menuPositions.get? s.menuDepth = some 0 ∧
        ∀ i, i < s.menuDepth → s1.menuPositions.get? i = s.menuPositions.get? i) ∧
      (s.menuDepth = 0 → s1.menuDepth = 0 ∧ s1.menuPositions = s.menuPositions) := by
  have hinv : CursorInv s := reachable_inv h
  have hd : s.menuDepth ≤ 2 := hinv.1
  obtain ⟨h1, h2, -⟩ := callAction_frame hdone
  have hloop := actionBranch_of_ret (s := pollButtons s inp.ok inp.next inp.prev) hd hdone
  rw [← loop_action inp hact] at hloop
  refine ⟨_, _, hloop, ?_, ?_, ?_, ?_⟩
  · simp only [if_true]; split <;> rfl
  · simp only [if_true]; split <;> rfl
  · intro hpos
    have hpos1 : 0 < (pollButtons s inp.ok inp.next inp.prev).menuDepth := hpos
    simp only [if_true, hpos1]
    refine ⟨rfl, Positions.get?_put _ _ hd, ?_⟩
    intro i hi
    obtain ⟨r, d, ⟨a0, b, c⟩, act, ok, nx, pv, t1, t2⟩ := s
    simp only at hd hi ⊢
    interval_cases d <;> interval_cases i <;> rfl
  · intro h0
    have h01 : ¬ 0 < (pollButtons s inp.ok inp.next inp.prev).menuDepth := by
      show ¬ 0 < s.menuDepth
      omega
    simp only [if_true, h01, if_false]
    exact ⟨h1.trans h0, h2⟩

theorem action_complete_pops_witness :
    ∃ s1 evs, loop btNoticeState { clock := 2005 } = Outcome.ret (s1, evs) ∧
      s1.currentAction = none ∧ s1.uiRefresh = true ∧
      (0 < btNoticeState.menuDepth →
        s1.menuDepth = btNoticeState.menuDepth - 1 ∧
        s1.menuPositions.get? btNoticeState.menuDepth = some 0 ∧
        ∀ i, i < btNoticeState.menuDepth →
          s1.menuPositions.get? i = btNoticeState.menuPositions.get? i) ∧
      (btNoticeState.menuDepth = 0 →
        s1.menuDepth = 0 ∧ s1.menuPositions = btNoticeState.menuPositions) :=
  action_complete_pops btNoticeState MenuAction.btChannelList { clock := 2005 }
    { btNoticeState with notImplemented_startTime := 0 } [] reachable_btNoticeState rfl
    (by decide)


/-! ## Timing of the notice action -/

theorem sub32_millis (t0 d : Nat) :
    sub32 (millis { clock := t0 + d }) (t0 % UINT32_MOD) = d % UINT32_MOD := by
  simp only [sub32, millis, UINT32_MOD]
  omega

/-- While the elapsed time stays below the duration, the statics hold the
start time recorded by the first call. -/
theorem noticeStateAfter_running {s : State} {t0 P : Nat} (hs : s.notImplemented_startTime = 0)
    (ht0 : t0 % 4294967296 ≠ 0) :
    ∀ k, k * P < 2000 →
      noticeStateAfter s t0 P (k + 1) = { s with notImplemented_startTime := t0 % 4294967296 } := by
  intro k
  induction k with
  | zero =>
    intro _
    simp [noticeStateAfter, action_notImplemented, hs, millis, UINT32_MOD]
  | succ k ih =>
    intro hk
    have hk1 : k * P < 2000 := by
      have : (k + 1) * P = k * P + P := Nat.succ_mul k P
      omega
    have hlt : ((k + 1) * P) % 4294967296 < 2000 := by
      rw [Nat.mod_eq_of_lt (by omega)]
      exact hk
    have hsub := sub32_millis t0 ((k + 1) * P)
    simp only [UINT32_MOD] at hsub
    rw [noticeStateAfter, ih hk1]
    simp only [action_notImplemented, ht0, if_false, hsub, ge_iff_le]
    rw [if_neg (by omega)]

theorem ceil_div_facts {P : Nat} (hP : 1 ≤ P) (hP32 : P < 4294967296) :
    (∀ k, k < (2000 + P - 1) / P → k * P < 2000) ∧
    2000 ≤ (2000 + P - 1) / P * P ∧ (2000 + P - 1) / P * P < 4294967296 ∧
    1 ≤ (2000 + P - 1) / P := by
  have hpos : 0 < P := hP
  refine ⟨?_, ?_, ?_, ?_⟩
  · intro k hk
    have h1 : (k + 1) * P ≤ 2000 + P - 1 := (Nat.le_div_iff_mul_le hpos).1 hk
    have : (k + 1) * P = k * P + P := Nat.succ_mul k P
    omega
  · by_contra hlt
    have h1 : ((2000 + P - 1) / P + 1) * P ≤ 2000 + P - 1 := by
      have : ((2000 + P - 1) / P + 1) * P = (2000 + P - 1) / P * P + P := Nat.succ_mul _ P
      omega
    have h2 := (Nat.le_div_iff_mul_le hpos).2 h1
    omega
  · have hle : (2000 + P - 1) / P * P ≤ 2000 + P - 1 := Nat.div_mul_le_self _ _
    by_cases hbig : 2000 ≤ P
    · have h1 : (2000 + P - 1) / P = 1 := by
        apply Nat.div_eq_of_lt_le
        · omega
        · omega
      rw [h1]
      omega
    · omega
  · exact (Nat.le_div_iff_mul_le hpos).2 (by omega)

/-- C10, as stated, fails. With frame period 1000 ms the claim makes the second
call (`⌈2000/1000⌉ - 1 = 1` Running call, Complete thereafter) return
Complete; the code returns Running on the first and on the second call. -/
theorem notice_tick_count_counterexample :
    (2000 + 1000 - 1) / 1000 - 1 = 1 ∧
    noticeResult initialState 5000 1000 0 = false ∧
    noticeResult initialState 5000 1000 1 = false := by
  decide

/-- C10, amended. For `action_notImplemented` (duration 2000 ms) called once
per frame with frame period `1 ≤ P < 2^32`, the first call reading a non-zero
clock value: the first `⌈2000/P⌉` calls return Running and call number
`⌈2000/P⌉ + 1` returns Complete. -/
theorem notice_tick_count (s : State) (t0 P : Nat) (hs : s.notImplemented_startTime = 0)
    (ht0 : t0 % 4294967296 ≠ 0) (hP : 1 ≤ P) (hP32 : P < 4294967296) :
    (∀ k, k < (2000 + P - 1) / P → noticeResult s t0 P k = false) ∧
    noticeResult s t0 P ((2000 + P - 1) / P) = true := by
  obtain ⟨hlt, hge, h32, hN⟩ := ceil_div_facts hP hP32
  constructor
  · intro k hk
    cases k with
    | zero => simp [noticeResult, noticeStateAfter, action_notImplemented, hs]
    | succ k =>
      have hk1 : (k + 1) * P < 2000 := hlt _ hk
      have hk0 : k * P < 2000 := by
        have : (k + 1) * P = k * P + P := Nat.succ_mul k P
        omega
      have hsub := sub32_millis t0 ((k + 1) * P)
      simp only [UINT32_MOD] at hsub
      rw [Nat.mod_eq_of_lt (show (k + 1) * P < 4294967296 by omega)] at hsub
      rw [noticeResult, noticeStateAfter_running hs ht0 k hk0]
      simp only [action_notImplemented, ht0, if_false, hsub, ge_iff_le]
      rw [if_neg (by omega)]
  · obtain ⟨m, hm⟩ : ∃ m, (2000 + P - 1) / P = m + 1 := ⟨(2000 + P - 1) / P - 1, by omega⟩
    rw [hm] at hge h32 ⊢
    have hm0 : m * P < 2000 := hlt m (by omega)
    have hsub := sub32_millis t0 ((m + 1) * P)
    simp only [UINT32_MOD] at hsub
    rw [Nat.mod_eq_of_lt h32] at hsub
    rw [noticeResult, noticeStateAfter_running hs ht0 m hm0]
    simp only [action_notImplemented, ht0, if_false, hsub, ge_iff_le]
    rw [if_pos hge]

theorem notice_tick_count_witness :
    (2000 + 1000 - 1) / 1000 = 2 ∧
    (∀ k, k < (2000 + 1000 - 1) / 1000 → noticeResult initialState 5000 1000 k = false) ∧
    noticeResult initialState 5000 1000 ((2000 + 1000 - 1) / 1000) = true :=
  ⟨by decide, notice_tick_count initialState 5000 1000 rfl (by decide) (by decide) (by decide)⟩


/-! ## Claims C11 to C20 -/

/-- Elapsed-time test of a started notice action, in integer arithmetic. -/
theorem sub32_ge_iff (c t0 : Nat) :
    2000 ≤ sub32 (c % 4294967296) t0 ↔ 2000 ≤ ((c : Int) - (t0 : Int)) % 4294967296 := by
  simp only [sub32, UINT32_MOD]
  omega

/-- C11. For `action_notImplemented` whose setup call recorded a non-zero start
time `t0`: a later call at clock value `t` returns Complete if
and only if `(t - t0) mod 2^32 ≥ 2000`, and Running otherwise; a Running call
leaves the statics as they are, so the same test applies to the call after it,
and a Complete call resets the start time to 0. The test is on the wrapped
difference, so it is not affected by the clock passing `2^32`. -/
theorem notice_completion_test (s : State) (inp : Input) (t0 : Nat)
    (hs : s.notImplemented_startTime = t0) (h0 : t0 ≠ 0) :
    ((action_notImplemented s inp).2.1 = true ↔
        2000 ≤ ((inp.clock : Int) - (t0 : Int)) % 4294967296) ∧
    ((action_notImplemented s inp).2.1 = false ↔
        ((inp.clock : Int) - (t0 : Int)) % 4294967296 < 2000) ∧
    ((action_notImplemented s inp).2.1 = false → (action_notImplemented s inp).1 = s) ∧
    ((action_notImplemented s inp).2.1 = true →
        (action_notImplemented s inp).1.notImplemented_startTime = 0) := by
  have hiff := sub32_ge_iff inp.clock t0
  subst hs
  by_cases hge : 2000 ≤ sub32 (inp.clock % 4294967296) s.notImplemented_startTime
  · have hz := hiff.1 hge
    simp only [action_notImplemented, millis, UINT32_MOD, h0, if_false, ge_iff_le, hge, if_true]
    refine ⟨⟨fun _ => hz, fun _ => trivial⟩, ⟨fun h => (by cases h), fun h => (by omega)⟩,
      fun h => (by cases h), fun _ => trivial⟩
  · have hz : ¬ 2000 ≤ ((inp.clock : Int) - (s.notImplemented_startTime : Int)) % 4294967296 :=
      fun h => hge (hiff.2 h)
    simp only [action_notImplemented, millis, UINT32_MOD, h0, if_false, ge_iff_le, hge]
    refine ⟨⟨fun h => (by cases h), fun h => absurd h hz⟩, ⟨fun _ => (by omega), fun _ => trivial⟩,
      fun _ => trivial, fun h => (by cases h)⟩

/-- The clock wraps between setup (1000 ms before `2^32`) and the poll. -/
theorem notice_completion_test_witness :
    ((action_notImplemented { initialState with notImplemented_startTime := 4294966296 }
          { clock := 4294968296 }).2.1 = true ↔
        2000 ≤ (((4294968296 : Nat) : Int) - ((4294966296 : Nat) : Int)) % 4294967296) ∧
    (action_notImplemented { initialState with notImplemented_startTime := 4294966296 }
          { clock := 4294968296 }).2.1 = true :=
  ⟨(notice_completion_test { initialState with notImplemented_startTime := 4294966296 }
      { clock := 4294968296 } 4294966296 rfl (by decide)).1, by decide⟩

theorem load_configs_missing_key (sz : Nat) (p : Prefs)
    (h : p.isKey CONFIG_KEY_RADIO_NUM = false ∨ p.isKey CONFIG_KEY_RADIO_JAM_MODE = false) :
    load_configs sz (some p) = false := by
  rcases h with h | h <;> simp [load_configs, CONFIG_MANDATORY_KEYS, h]

/-- C12. Bootstrap gate. If the namespace cannot be opened, or one of the
mandatory keys "radio_count" and "radio_jam_mode" is absent, `load_configs()`
returns false; `setup()` then never reaches the main loop: it ends in the
error state, unless the factory-reset chord was held at power-up and
`factory_settings()` did not return (it restarted the device or is still
waiting); without the chord it always ends in the error state. -/
theorem bootstrap_gate (sz : Nat) (nvs : Option Prefs) (okRaw prevRaw : Bool) (inp : Input)
    (h : nvs = none ∨ ∃ p, nvs = some p ∧
      (p.isKey CONFIG_KEY_RADIO_NUM = false ∨ p.isKey CONFIG_KEY_RADIO_JAM_MODE = false)) :
    load_configs sz nvs = false ∧
    (∀ s evs, setup sz nvs okRaw prevRaw inp ≠ Boot.running s evs) ∧
    ((∃ evs, setup sz nvs okRaw prevRaw inp = Boot.halted evs) ∨
      ((okRaw && prevRaw) = true ∧
        ∀ r, factory_settings bootState { inp with prefs := nvs.getD { entries := [] } }
          ≠ Outcome.ret r)) ∧
    ((okRaw && prevRaw) = false →
      setup sz nvs okRaw prevRaw inp
        = Boot.halted (error "Failed to load configurations." inp.adc)) := by
  have hl : load_configs sz nvs = false := by
    rcases h with rfl | ⟨p, rfl, hp⟩
    · rfl
    · exact load_configs_missing_key sz p hp
  refine ⟨hl, ?_, ?_, ?_⟩
  · intro s evs
    simp only [setup, hl]
    split <;> simp
  · cases hc : (okRaw && prevRaw)
    · left
      exact ⟨error "Failed to load configurations." inp.adc, by simp [setup, hc, hl]⟩
    · cases hf : factory_settings bootState { inp with prefs := nvs.getD { entries := [] } } with
      | ret r =>
        left
        obtain ⟨s1, evs1⟩ := r
        exact ⟨evs1 ++ error "Failed to load configurations." inp.adc,
          by simp [setup, hc, hl, hf]⟩
      | fault => right; exact ⟨rfl, fun r hr => by cases hr⟩
      | restart p => right; exact ⟨rfl, fun r hr => by cases hr⟩
      | blocked => right; exact ⟨rfl, fun r hr => by cases hr⟩
  · intro hc
    simp [setup, hc, hl]

theorem bootstrap_gate_witness :
    load_configs 8 (some { entries := [("radio_count", [0])] }) = false ∧
    setup 8 (some { entries := [("radio_count", [0])] }) false false {}
      = Boot.halted (error "Failed to load configurations." 0) :=
  ⟨(bootstrap_gate 8 (some { entries := [("radio_count", [0])] }) false false {}
      (Or.inr ⟨_, rfl, Or.inr (by decide)⟩)).1,
   (bootstrap_gate 8 (some { entries := [("radio_count", [0])] }) false false {}
      (Or.inr ⟨_, rfl, Or.inr (by decide)⟩)).2.2.2 rfl⟩

/-- C13, as stated, fails for the depth-2 level. The level "Jamming Mode",
entered from "Settings", has as its last item "Standalone", which is not the
item "Return", and the action tables bind `action_jammingStandalone` to it. -/
theorem jamming_mode_level_counterexample :
    Reachable standaloneState ∧ standaloneState.menuDepth = 2 ∧ atLastIndex standaloneState ∧
    levelAt standaloneState.menuPositions 2 = some menu_jammingModes ∧
    menu_jammingModes.getLast? = some "Standalone" ∧ "Standalone" ≠ option_return ∧
    boundAction standaloneState = some MenuAction.jammingStandalone :=
  ⟨reachable_standaloneState, rfl, ⟨1, 2, rfl, rfl, rfl⟩, rfl, rfl, by decide, rfl⟩

/-- C13, amended to the depth-1 levels. Every submenu of the main menu (there
are four) has the item "Return" as its last item, and the action table of the
submenu has the same length and holds `nullptr` at that last index. -/
theorem depth1_levels_end_with_return (p0 : Nat) (m : List String)
    (h : depth_1_menuTree[p0]? = some (some m)) :
    m.getLast? = some option_return ∧
    (∃ acts, depth_1_actions[p0]? = some (some acts) ∧ acts.length = m.length ∧
      acts[m.length - 1]? = some none) ∧
    (depth_1_menuTree.filter Option.isSome).length = 4 := by
  rcases p0 with _ | _ | _ | _ | _ | _ | _ | _ | p0 <;>
    simp [depth_1_menuTree] at h <;> subst h
  · exact ⟨rfl, ⟨depth_1_btJam_actions, rfl, rfl, rfl⟩, rfl⟩
  · exact ⟨rfl, ⟨depth_1_wifiJam_actions, rfl, rfl, rfl⟩, rfl⟩
  · exact ⟨rfl, ⟨depth_1_droneJam_actions, rfl, rfl, rfl⟩, rfl⟩
  · exact ⟨rfl, ⟨depth_1_settings_actions, rfl, rfl, rfl⟩, rfl⟩

theorem depth1_levels_end_with_return_witness :
    menu_settings.getLast? = some option_return ∧
    (∃ acts, depth_1_actions[6]? = some (some acts) ∧ acts.length = menu_settings.length ∧
      acts[menu_settings.length - 1]? = some none) ∧
    (depth_1_menuTree.filter Option.isSome).length = 4 :=
  depth1_levels_end_with_return 6 menu_settings rfl

/-- C14. No item of the static tables has both a submenu and a bound action:
where `depth_1_menuTree` is not `nullptr`, `depth_0_actions` is `nullptr`; where
`depth_2_menuTree[i][j]` is not `nullptr`, `depth_1_actions[i][j]` is `nullptr`
(or its table is); items at depth 2 have no submenu. In terms of the cursor:
whenever the selected item owns a submenu, no action is bound to its path. -/
theorem no_item_with_submenu_and_action :
    (∀ i : Nat, (depth_1_menuTree[i]?).join.isSome = true → (depth_0_actions[i]?).join = none) ∧
    (∀ i j : Nat, ((depth_2_menuTree[i]?).join.bind fun t => t[j]?).join.isSome = true →
      ((depth_1_actions[i]?).join.bind fun as => as[j]?).join = none) ∧
    (∀ s : State, 2 ≤ s.menuDepth → ¬ hasChild s) ∧
    (∀ s : State, hasChild s → boundAction s = none) := by
  have h1 : ∀ i : Nat, (depth_1_menuTree[i]?).join.isSome = true →
      (depth_0_actions[i]?).join = none := by
    intro i
    rcases i with _ | _ | _ | _ | _ | _ | _ | _ | i <;>
      simp [depth_1_menuTree, depth_0_actions]
  have h2 : ∀ i j : Nat, ((depth_2_menuTree[i]?).join.bind fun t => t[j]?).join.isSome = true →
      ((depth_1_actions[i]?).join.bind fun as => as[j]?).join = none := by
    intro i j
    rcases i with _ | _ | _ | _ | _ | _ | _ | _ | i <;>
      rcases j with _ | _ | _ | _ | j <;>
      simp [depth_2_menuTree, depth_2_btJam, depth_2_wifiJam, depth_2_droneJam, depth_2_settings,
        depth_1_actions, depth_1_btJam_actions, depth_1_wifiJam_actions,
        depth_1_droneJam_actions, depth_1_settings_actions]
  have h3 : ∀ s : State, 2 ≤ s.menuDepth → ¬ hasChild s := by
    intro s hd
    obtain ⟨k, hk⟩ : ∃ k, s.menuDepth = k + 2 := ⟨s.menuDepth - 2, by omega⟩
    simp [hasChild, hk, levelAt]
  refine ⟨h1, h2, h3, ?_⟩
  intro s hc
  by_cases hd : 2 ≤ s.menuDepth
  · exact absurd hc (h3 s hd)
  · have hd01 : s.menuDepth = 0 ∨ s.menuDepth = 1 := by omega
    rcases hd01 with hd0 | hd1
    · simp only [hasChild, hd0, levelAt] at hc
      simp only [boundAction, hd0]
      exact h1 _ hc
    · simp only [hasChild, hd1, levelAt] at hc
      simp only [boundAction, hd1]
      exact h2 _ _ hc

theorem no_item_with_submenu_and_action_witness :
    hasChild jammingModeItemState ∧ boundAction jammingModeItemState = none ∧
    (depth_0_actions[6]?).join = none :=
  ⟨by unfold hasChild; decide,
   no_item_with_submenu_and_action.2.2.2 jammingModeItemState (by unfold hasChild; decide),
   no_item_with_submenu_and_action.1 6 (by decide)⟩

/-! ## Statics of the timed actions -/

theorem factory_dialog_statics (frames : List Frame) :
    ∀ (s : State) (pos : Nat) (s1 : State) (pos1 : Nat) (evs : List Event),
      factory_dialog s pos frames = some (s1, pos1, evs) →
      s1.notImplemented_startTime = s.notImplemented_startTime ∧
      s1.about_startTime = s.about_startTime := by
  induction frames with
  | nil =>
    intro s pos s1 pos1 evs h
    simp only [factory_dialog] at h
    split at h
    · simp only [Option.some.injEq, Prod.mk.injEq] at h
      obtain ⟨rfl, -, -⟩ := h
      exact ⟨rfl, rfl⟩
    · cases h
  | cons f rest ih =>
    intro s pos s1 pos1 evs h
    simp only [factory_dialog] at h
    split at h
    · simp only [Option.some.injEq, Prod.mk.injEq] at h
      obtain ⟨rfl, -, -⟩ := h
      exact ⟨rfl, rfl⟩
    · split at h
      · cases h
      · rename_i s4 pos4 evs4 hrec
        simp only [Option.some.injEq, Prod.mk.injEq] at h
        obtain ⟨rfl, -, -⟩ := h
        obtain ⟨h1, h2⟩ := ih _ _ _ _ _ hrec
        constructor
        · rw [h1]; simp only [pollButtons]; split <;> split <;> rfl
        · rw [h2]; simp only [pollButtons]; split <;> split <;> rfl

theorem factory_settings_statics {s s1 : State} {inp : Input} {evs : List Event}
    (h : factory_settings s inp = Outcome.ret (s1, evs)) :
    s1.notImplemented_startTime = s.notImplemented_startTime ∧
    s1.about_startTime = s.about_startTime := by
  simp only [factory_settings] at h
  split at h
  · cases h
  · split at h
    · cases h
    · rename_i s3 pos evs3 hdlg
      split at h
      · cases h
      · simp only [Outcome.ret.injEq, Prod.mk.injEq] at h
        obtain ⟨rfl, -⟩ := h
        have h2 := factory_dialog_statics _ _ _ _ _ _ hdlg
        exact h2

/-- What an action call does to the two start times. -/
theorem callAction_statics {a : MenuAction} {s s1 : State} {inp : Input} {done : Bool}
    {evs : List Event} (h : callAction a s inp = Outcome.ret (s1, done, evs)) :
    (a = MenuAction.about →
      s1.notImplemented_startTime = s.notImplemented_startTime ∧
      (done = true → s1.about_startTime = 0)) ∧
    (a.usesNoticeTimer = true →
      s1.about_startTime = s.about_startTime ∧
      (done = true → s1.notImplemented_startTime = 0)) ∧
    (a = MenuAction.factorySettings →
      s1.notImplemented_startTime = s.notImplemented_startTime ∧
      s1.about_startTime = s.about_startTime) := by
  have hN : ∀ {s1 done evs}, action_notImplemented s inp = (s1, done, evs) →
      s1.about_startTime = s.about_startTime ∧
      (done = true → s1.notImplemented_startTime = 0) := by
    intro s1 done evs h
    unfold action_notImplemented at h
    split at h
    · simp only [Prod.mk.injEq] at h
      obtain ⟨rfl, rfl, -⟩ := h
      exact ⟨rfl, fun h => (by cases h)⟩
    · split at h
      · simp only [Prod.mk.injEq] at h
        obtain ⟨rfl, rfl, -⟩ := h
        exact ⟨rfl, fun _ => rfl⟩
      · simp only [Prod.mk.injEq] at h
        obtain ⟨rfl, rfl, -⟩ := h
        exact ⟨rfl, fun h => (by cases h)⟩
  cases a
  case about =>
    simp only [callAction, Outcome.ret.injEq] at h
    refine ⟨fun _ => ?_, fun hu => (by cases hu), fun hf => (by cases hf)⟩
    unfold action_about at h
    split at h
    · simp only [Prod.mk.injEq] at h
      obtain ⟨rfl, rfl, -⟩ := h
      exact ⟨rfl, fun h => (by cases h)⟩
    · split at h
      · simp only [Prod.mk.injEq] at h
        obtain ⟨rfl, rfl, -⟩ := h
        exact ⟨rfl, fun _ => rfl⟩
      · simp only [Prod.mk.injEq] at h
        obtain ⟨rfl, rfl, -⟩ := h
        exact ⟨rfl, fun h => (by cases h)⟩
  case factorySettings =>
    refine ⟨fun ha => (by cases ha), fun hu => (by cases hu), fun _ => ?_⟩
    simp only [callAction, action_factorySettings] at h
    split at h
    · rename_i s2 evs2 heq
      simp only [Outcome.ret.injEq, Prod.mk.injEq] at h
      obtain ⟨rfl, -, -⟩ := h
      exact factory_settings_statics heq
    all_goals cases h
  all_goals
    simp only [callAction, Outcome.ret.injEq] at h
    exact ⟨fun ha => (by cases ha), fun _ => hN h, fun hf => (by cases hf)⟩

/-- One iteration of `loop()` keeps the statics invariant. -/
theorem loop_statics_inv {s s1 : State} {inp : Input} {evs : List Event} (h : CursorInv s)
    (hst : StaticsInv s) (hl : loop s inp = Outcome.ret (s1, evs)) : StaticsInv s1 := by
  have hP : CursorInv (pollButtons s inp.ok inp.next inp.prev) := cursorInv_congr rfl rfl h
  cases hact : s.currentAction with
  | none =>
    rw [loop_idle inp hact] at hl
    obtain ⟨s2, e2, hnav, -, ht1, ht2, -⟩ := navigation_of_inv inp hP
    rw [hnav] at hl
    simp only [Outcome.ret.injEq, Prod.mk.injEq] at hl
    obtain ⟨rfl, -⟩ := hl
    have hn0 : s.notImplemented_startTime = 0 := by
      by_contra hne
      obtain ⟨a, ha, -⟩ := hst.1 hne
      rw [hact] at ha
      cases ha
    have ha0 : s.about_startTime = 0 := by
      by_contra hne
      have := hst.2 hne
      rw [hact] at this
      cases this
    have e1 : s2.notImplemented_startTime = 0 := ht1.trans hn0
    have e2 : s2.about_startTime = 0 := ht2.trans ha0
    exact ⟨fun hne => absurd e1 hne, fun hne => absurd e2 hne⟩
  | some a =>
    rw [loop_action inp hact] at hl
    cases hcall : callAction a (pollButtons s inp.ok inp.next inp.prev) inp with
    | fault => simp [actionBranch, hcall] at hl
    | restart p => simp [actionBranch, hcall] at hl
    | blocked => simp [actionBranch, hcall] at hl
    | ret r =>
      obtain ⟨s2, done, aevs⟩ := r
      obtain ⟨-, -, hca, -, -⟩ := callAction_frame hcall
      obtain ⟨hA, hN, hF⟩ := callAction_statics hcall
      rw [actionBranch_of_ret hP.1 hcall] at hl
      simp only [Outcome.ret.injEq, Prod.mk.injEq] at hl
      obtain ⟨hs1, -⟩ := hl
      have hca2 : s2.currentAction = some a := hca.trans hact
      -- the start time that the active action does not run on is 0 before the call
      have hother_n : a.usesNoticeTimer = false → s.notImplemented_startTime = 0 := by
        intro hu
        by_contra hne
        obtain ⟨a1, ha1, hu1⟩ := hst.1 hne
        rw [hact] at ha1
        cases ha1
        rw [hu] at hu1
        cases hu1
      have hother_a : a ≠ MenuAction.about → s.about_startTime = 0 := by
        intro hna
        by_contra hne
        have := hst.2 hne
        rw [hact] at this
        cases this
        exact hna rfl
      have hn2 : a.usesNoticeTimer = false → s2.notImplemented_startTime = 0 := by
        intro hu
        cases a <;> first
          | exact (hA rfl).1.trans (hother_n hu)
          | exact (hF rfl).1.trans (hother_n hu)
          | cases hu
      have ha2 : a ≠ MenuAction.about → s2.about_startTime = 0 := by
        intro hna
        cases a <;> first
          | exact absurd rfl hna
          | exact (hF rfl).2.trans (hother_a hna)
          | exact (hN rfl).1.trans (hother_a hna)
      cases done
      · simp only [Bool.false_eq_true, if_false] at hs1
        subst hs1
        constructor
        · intro hne
          refine ⟨a, hca2, ?_⟩
          by_contra hu
          exact hne (hn2 (by simpa using hu))
        · intro hne
          by_contra hna
          have hna1 : a ≠ MenuAction.about := fun e => hna (by rw [hca2, e])
          exact hne (ha2 hna1)
      · have e1 : s2.notImplemented_startTime = 0 := by
          cases hu : a.usesNoticeTimer
          · exact hn2 hu
          · exact (hN hu).2 rfl
        have e2 : s2.about_startTime = 0 := by
          by_cases hab : a = MenuAction.about
          · exact (hA hab).2 rfl
          · exact ha2 hab
        have e1s : s1.notImplemented_startTime = 0 := by
          rw [← hs1]; simp only [if_true]; split <;> exact e1
        have e2s : s1.about_startTime = 0 := by
          rw [← hs1]; simp only [if_true]; split <;> exact e2
        exact ⟨fun hne => absurd e1s hne, fun hne => absurd e2s hne⟩

/-- Every reachable state satisfies the statics invariant. -/
theorem reachable_statics {s : State} (h : Reachable s) : StaticsInv s := by
  induction h with
  | init => exact ⟨fun hne => absurd rfl hne, fun hne => absurd rfl hne⟩
  | tick hr hl ih => exact loop_statics_inv (reachable_inv hr) ih hl

theorem statics_zero_of_idle {s : State} (h : Reachable s) (hact : s.currentAction = none) :
    s.notImplemented_startTime = 0 ∧ s.about_startTime = 0 := by
  obtain ⟨h1, h2⟩ := reachable_statics h
  constructor
  · by_contra hne
    obtain ⟨a, ha, -⟩ := h1 hne
    rw [hact] at ha
    cases ha
  · by_contra hne
    have := h2 hne
    rw [hact] at this
    cases this

/-- A timed action called with both start times at 0 does its setup: it records
the clock, shows its screen and returns Running. -/
theorem callAction_first {a : MenuAction} (s : State) (inp : Input)
    (ha : a ≠ MenuAction.factorySettings) (hn : s.notImplemented_startTime = 0)
    (hb : s.about_startTime = 0) :
    ∃ t b m, callAction a s inp = Outcome.ret
      (if a = MenuAction.about then { s with about_startTime := millis inp }
       else { s with notImplemented_startTime := millis inp },
       false, [Event.runningActivityScreen t b m]) := by
  cases a
  case about =>
    exact ⟨"About", get_battery_percentage inp.adc, "OTG Jammer v1.0\nby fpp3\n2026",
      by simp [callAction, action_about, hb]⟩
  case factorySettings => exact absurd rfl ha
  all_goals
    exact ⟨"Not Implemented", get_battery_percentage inp.adc,
      "This feature is not yet implemented.", by simp [callAction, action_notImplemented, hn]⟩

theorem reachable_factoryItemState : Reachable factoryItemState :=
  reachable_of_run factoryItemPath Reachable.init (by decide)

/-- C15, as stated, fails for `action_factorySettings`. The action is bound to
"Settings > Factory Reset"; OK on that item makes it the active action, and its
first call, in which the user leaves the dialog on the preselected "Cancel",
returns Complete: the iteration clears the active action. -/
theorem factory_action_first_tick_counterexample :
    Reachable factoryItemState ∧
    boundAction factoryItemState = some MenuAction.factorySettings ∧
    (∃ evs, loop factoryItemState pressOk = Outcome.ret (factoryStartedState, evs)) ∧
    (∃ s2 aevs, callAction MenuAction.factorySettings
        (pollButtons factoryStartedState cancelDialog.ok cancelDialog.next cancelDialog.prev)
        cancelDialog = Outcome.ret (s2, true, aevs)) ∧
    ∃ s2 evs2, loop factoryStartedState cancelDialog = Outcome.ret (s2, evs2) ∧
      Event.actionCall MenuAction.factorySettings true ∈ evs2 ∧ s2.currentAction = none :=
  ⟨reachable_factoryItemState, rfl, ⟨_, rfl⟩, ⟨_, _, rfl⟩,
    { factoryItemState with menuDepth := 0, menuPositions := { p0 := 6, p1 := 0, p2 := 0 } },
    _, rfl, by simp, rfl⟩

/-- C15, amended: every action except `action_factorySettings`. When an
iteration of `loop()` from a reachable state with no action active starts an
action other than `action_factorySettings`, the next iteration, whatever its
input, calls that action once, the call returns Running, and the action stays
active. -/
theorem first_tick_running (s s1 : State) (inp inp2 : Input) (evs : List Event)
    (a : MenuAction) (h : Reachable s) (hact : s.currentAction = none)
    (hl : loop s inp = Outcome.ret (s1, evs)) (ha : s1.currentAction = some a)
    (hne : a ≠ MenuAction.factorySettings) :
    ∃ s2 aevs, loop s1 inp2 = Outcome.ret (s2, aevs ++ [Event.actionCall a false]) ∧
      (∀ e ∈ aevs, e.isActionCall = false) ∧ s2.currentAction = some a := by
  have hr1 : Reachable s1 := Reachable.tick h hl
  obtain ⟨hn0, hb0⟩ := statics_zero_of_idle h hact
  have hS : CursorInv s := reachable_inv h
  have hP : CursorInv (pollButtons s inp.ok inp.next inp.prev) := cursorInv_congr rfl rfl hS
  obtain ⟨s1x, evsx, hnav, -, ht1, ht2, -⟩ := navigation_of_inv inp hP
  rw [loop_idle inp hact, hnav] at hl
  simp only [Outcome.ret.injEq, Prod.mk.injEq] at hl
  obtain ⟨rfl, -⟩ := hl
  have hn1 : (pollButtons s1x inp2.ok inp2.next inp2.prev).notImplemented_startTime = 0 :=
    ht1.trans hn0
  have hb1 : (pollButtons s1x inp2.ok inp2.next inp2.prev).about_startTime = 0 :=
    ht2.trans hb0
  obtain ⟨t, b, m, hcall⟩ := callAction_first (a := a) _ inp2 hne hn1 hb1
  have hd1 : s1x.menuDepth ≤ 2 := (reachable_inv hr1).1
  have hbr := actionBranch_of_ret (s := pollButtons s1x inp2.ok inp2.next inp2.prev) hd1 hcall
  rw [← loop_action inp2 ha] at hbr
  obtain ⟨-, -, hca, -, -⟩ := callAction_frame hcall
  refine ⟨_, _, hbr, ?_, ?_⟩
  · intro e he
    simp only [List.mem_singleton] at he
    subst he
    rfl
  · simp only [Bool.false_eq_true, if_false]
    exact hca.trans ha

theorem first_tick_running_witness :
    ∃ s2 aevs, loop { bleItemState with uiRefresh := false,
                                        currentAction := some MenuAction.bleJam }
        { clock := 7000 } = Outcome.ret (s2, aevs ++ [Event.actionCall MenuAction.bleJam false]) ∧
      (∀ e ∈ aevs, e.isActionCall = false) ∧ s2.currentAction = some MenuAction.bleJam :=
  first_tick_running bleItemState _ pressOk { clock := 7000 } _ MenuAction.bleJam
    reachable_bleItemState rfl rfl rfl (by decide)

/-- C16. Restartability. A call of `action_notImplemented` or `action_about`
that returns Complete leaves its start time at the unstarted sentinel 0. In
every reachable state with no action active both start times are 0. When such
a state starts an action other than the factory-reset dialog, the first call
of that action, whatever the clock, performs the setup (it records the clock
value as start time and shows its screen) and returns Running. -/
theorem timed_actions_restartable :
    (∀ (s : State) (inp : Input),
        ((action_notImplemented s inp).2.1 = true →
          (action_notImplemented s inp).1.notImplemented_startTime = 0) ∧
        ((action_about s inp).2.1 = true → (action_about s inp).1.about_startTime = 0)) ∧
    (∀ s : State, Reachable s → s.currentAction = none →
        s.notImplemented_startTime = 0 ∧ s.about_startTime = 0) ∧
    (∀ (s s1 : State) (inp inp2 : Input) (evs : List Event) (a : MenuAction),
        Reachable s → s.currentAction = none → loop s inp = Outcome.ret (s1, evs) →
        s1.currentAction = some a → a ≠ MenuAction.factorySettings →
        ∃ s2 t b m,
          callAction a (pollButtons s1 inp2.ok inp2.next inp2.prev) inp2
            = Outcome.ret (s2, false, [Event.runningActivityScreen t b m]) ∧
          (a = MenuAction.about → s2.about_startTime = millis inp2) ∧
          (a ≠ MenuAction.about → s2.notImplemented_startTime = millis inp2)) := by
  refine ⟨fun s inp => ⟨?_, ?_⟩, fun s h hact => statics_zero_of_idle h hact, ?_⟩
  · unfold action_notImplemented
    split
    · intro h; cases h
    · split
      · intro _; rfl
      · intro h; cases h
  · unfold action_about
    split
    · intro h; cases h
    · split
      · intro _; rfl
      · intro h; cases h
  · intro s s1 inp inp2 evs a h hact hl ha hne
    obtain ⟨hn0, hb0⟩ := statics_zero_of_idle h hact
    have hS : CursorInv s := reachable_inv h
    have hP : CursorInv (pollButtons s inp.ok inp.next inp.prev) := cursorInv_congr rfl rfl hS
    obtain ⟨s1x, evsx, hnav, -, ht1, ht2, -⟩ := navigation_of_inv inp hP
    rw [loop_idle inp hact, hnav] at hl
    simp only [Outcome.ret.injEq, Prod.mk.injEq] at hl
    obtain ⟨rfl, -⟩ := hl
    have hn1 : (pollButtons s1x inp2.ok inp2.next inp2.prev).notImplemented_startTime = 0 :=
      ht1.trans hn0
    have hb1 : (pollButtons s1x inp2.ok inp2.next inp2.prev).about_startTime = 0 :=
      ht2.trans hb0
    obtain ⟨t, b, m, hcall⟩ := callAction_first (a := a) _ inp2 hne hn1 hb1
    refine ⟨_, t, b, m, hcall, ?_, ?_⟩
    · intro hab
      simp [hab]
    · intro hab
      simp [hab]

theorem timed_actions_restartable_witness :
    (btNoticeState.currentAction = some MenuAction.btChannelList ∧
      (action_notImplemented btNoticeState { clock := 2005 }).2.1 = true ∧
      (action_notImplemented btNoticeState { clock := 2005 }).1.notImplemented_startTime = 0) ∧
    (bleItemState.notImplemented_startTime = 0 ∧ bleItemState.about_startTime = 0) ∧
    (∃ s2 t b m,
      callAction MenuAction.bleJam
          (pollButtons { bleItemState with uiRefresh := false,
                                           currentAction := some MenuAction.bleJam }
            false false false) { clock := 7000 }
        = Outcome.ret (s2, false, [Event.runningActivityScreen t b m]) ∧
      (MenuAction.bleJam = MenuAction.about → s2.about_startTime = millis { clock := 7000 }) ∧
      (MenuAction.bleJam ≠ MenuAction.about →
        s2.notImplemented_startTime = millis { clock := 7000 })) :=
  ⟨⟨rfl, by decide,
      (timed_actions_restartable.1 btNoticeState { clock := 2005 }).1 (by decide)⟩,
   timed_actions_restartable.2.1 bleItemState reachable_bleItemState rfl,
   timed_actions_restartable.2.2 bleItemState _ pressOk { clock := 7000 } _ MenuAction.bleJam
     reachable_bleItemState rfl rfl rfl (by decide)⟩

/-! ## Table accesses -/

/-- The menu rendered under the invariant has as many items as announced and
the selected index is one of them. -/
theorem renderBlock_bounds {s : State} (inp : Input) (h : CursorInv s) :
    ∃ evs, renderBlock s inp = some ({ s with uiRefresh := false }, evs) ∧
      ∀ e ∈ evs, ∃ t b o c i, e = Event.optionSelectScreen t b o c i ∧ c = o.length ∧ i < c := by
  have hc := cursorInv_cases h
  obtain ⟨r, d, ⟨a, b, c⟩, act, ok, nx, pv, t1, t2⟩ := s
  simp only at hc
  cases r
  · exact ⟨[], by simp [renderBlock], by simp⟩
  · rcases hc with ⟨rfl, h0⟩ | ⟨rfl, ⟨rfl, h1⟩ | ⟨rfl, h1⟩ | ⟨rfl, h1⟩ | ⟨rfl, h1⟩⟩ |
      ⟨rfl, rfl, rfl, h2⟩ <;>
    simp [renderBlock, depth_0_menuSize, depth_0_menuTree, menu_main, depth_1_menuTree,
      depth_1_menuSizes, depth_2_menuTree, depth_2_menuSizes, depth_2_settings,
      depth_2_settings_sizes, menu_btJam, menu_wifiJam, menu_droneJam, menu_settings,
      menu_jammingModes, Positions.get?] <;>
    exact ⟨_, _, _, _, _, ⟨rfl, rfl, rfl, rfl, rfl⟩, rfl, by assumption⟩

theorem nextBlock_shape {s : State} (h : CursorInv s) :
    ∃ s1 e, nextBlock s = some (s1, e) ∧ CursorInv s1 ∧ (e = [] ∨ e = [Event.nextHandled]) := by
  cases hpr : s.nextPressed
  · exact ⟨s, [], nextBlock_idle hpr, h, Or.inl rfl⟩
  · obtain ⟨p, n, -, hn, hlt, heq⟩ := nextBlock_of_inv h hpr
    exact ⟨_, _, heq,
      cursorInv_congr rfl rfl (cursorInv_put h hn (Nat.mod_lt _ (by omega))), Or.inr rfl⟩

theorem prevBlock_shape {s : State} (h : CursorInv s) :
    ∃ s1 e, prevBlock s = some (s1, e) ∧ CursorInv s1 ∧ (e = [] ∨ e = [Event.prevHandled]) := by
  cases hpr : s.prevPressed
  · exact ⟨s, [], prevBlock_idle hpr, h, Or.inl rfl⟩
  · obtain ⟨p, n, -, hn, hlt, heq⟩ := prevBlock_of_inv h hpr
    exact ⟨_, _, heq,
      cursorInv_congr rfl rfl (cursorInv_put h hn (Nat.mod_lt _ (by omega))), Or.inr rfl⟩

theorem okBlock_shape {s : State} (h : CursorInv s) :
    ∃ s1 e, okBlock s = some (s1, e) ∧ (e = [] ∨ e = [Event.okHandled]) := by
  cases hpr : s.okPressed
  · exact ⟨s, [], okBlock_idle hpr, Or.inl rfl⟩
  · obtain ⟨s1, heq, -⟩ := okBlock_of_inv h hpr
    exact ⟨s1, _, heq, Or.inr rfl⟩

/-- Under the invariant each of the four blocks of the navigation part returns
without a fault, one after the other. -/
theorem navigation_blocks_of_inv {s : State} (inp : Input) (h : CursorInv s) :
    ∃ sA eA sB eB sC eC sD eD,
      renderBlock s inp = some (sA, eA) ∧ nextBlock sA = some (sB, eB) ∧
      prevBlock sB = some (sC, eC) ∧ okBlock sC = some (sD, eD) ∧
      navigation s inp = some (sD, eA ++ eB ++ eC ++ eD) ∧
      (∀ e ∈ eA, ∃ t b o c i, e = Event.optionSelectScreen t b o c i ∧ c = o.length ∧ i < c) ∧
      (eB = [] ∨ eB = [Event.nextHandled]) ∧ (eC = [] ∨ eC = [Event.prevHandled]) ∧
      (eD = [] ∨ eD = [Event.okHandled]) := by
  obtain ⟨eA, hr, heA⟩ := renderBlock_bounds inp h
  have hA : CursorInv { s with uiRefresh := false } := cursorInv_congr rfl rfl h
  obtain ⟨sB, eB, hnb, hinvB, heB⟩ := nextBlock_shape hA
  obtain ⟨sC, eC, hpb, hinvC, heC⟩ := prevBlock_shape hinvB
  obtain ⟨sD, eD, hob, heD⟩ := okBlock_shape hinvC
  exact ⟨_, eA, sB, eB, sC, eC, sD, eD, hr, hnb, hpb, hob,
    by simp [navigation, hr, hnb, hpb, hob], heA, heB, heC, heD⟩

theorem factory_settings_ne_fault (s : State) (inp : Input) :
    factory_settings s inp ≠ Outcome.fault := by
  unfold factory_settings
  split
  · intro h; cases h
  · split
    · intro h; cases h
    · split <;> intro h <;> cases h

/-- No action accesses the menu tables: an action call never faults. -/
theorem callAction_ne_fault (a : MenuAction) (s : State) (inp : Input) :
    callAction a s inp ≠ Outcome.fault := by
  cases a
  case factorySettings =>
    have hfs := factory_settings_ne_fault s inp
    simp only [callAction, action_factorySettings]
    cases hf : factory_settings s inp with
    | fault => exact absurd hf hfs
    | ret r => intro h; cases h
    | restart p => intro h; cases h
    | blocked => intro h; cases h
  all_goals
    intro h
    cases h

/-- C19. Table-access safety. From a reachable state no iteration of `loop()`
ends in the fault outcome, which is how the embedding reports an index outside
a table or a dereferenced `nullptr`. With no action active the render, Next,
Previous and OK blocks each return, and a rendered menu is given its true item
count and a selected index below it. With an action active, the pop after
Complete writes inside `menuPositions`. -/
theorem table_access_safe (s : State) (inp : Input) (h : Reachable s) :
    loop s inp ≠ Outcome.fault ∧
    (s.currentAction = none →
      ∃ sA eA sB eB sC eC sD eD,
        renderBlock (pollButtons s inp.ok inp.next inp.prev) inp = some (sA, eA) ∧
        nextBlock sA = some (sB, eB) ∧ prevBlock sB = some (sC, eC) ∧
        okBlock sC = some (sD, eD) ∧
        loop s inp = Outcome.ret (sD, eA ++ eB ++ eC ++ eD) ∧
        ∀ t b o c i, Event.optionSelectScreen t b o c i ∈ eA ++ eB ++ eC ++ eD →
          c = o.length ∧ i < c) ∧
    (∀ a s2 done aevs, s.currentAction = some a →
      callAction a (pollButtons s inp.ok inp.next inp.prev) inp = Outcome.ret (s2, done, aevs) →
      ∃ s1 evs, loop s inp = Outcome.ret (s1, evs)) := by
  have hinv : CursorInv s := reachable_inv h
  have hP : CursorInv (pollButtons s inp.ok inp.next inp.prev) := cursorInv_congr rfl rfl hinv
  have hidle : s.currentAction = none →
      ∃ sA eA sB eB sC eC sD eD,
        renderBlock (pollButtons s inp.ok inp.next inp.prev) inp = some (sA, eA) ∧
        nextBlock sA = some (sB, eB) ∧ prevBlock sB = some (sC, eC) ∧
        okBlock sC = some (sD, eD) ∧
        loop s inp = Outcome.ret (sD, eA ++ eB ++ eC ++ eD) ∧
        ∀ t b o c i, Event.optionSelectScreen t b o c i ∈ eA ++ eB ++ eC ++ eD →
          c = o.length ∧ i < c := by
    intro hact
    obtain ⟨sA, eA, sB, eB, sC, eC, sD, eD, hr, hnb, hpb, hob, hnav, heA, heB, heC, heD⟩ :=
      navigation_blocks_of_inv inp hP
    refine ⟨sA, eA, sB, eB, sC, eC, sD, eD, hr, hnb, hpb, hob, ?_, ?_⟩
    · rw [loop_idle inp hact, hnav]
    · intro t b o c i hmem
      simp only [List.mem_append] at hmem
      rcases hmem with ((hm | hm) | hm) | hm
      · obtain ⟨t1, b1, o1, c1, i1, heq, hlen, hlt⟩ := heA _ hm
        cases heq
        exact ⟨hlen, hlt⟩
      · rcases heB with rfl | rfl <;> simp at hm
      · rcases heC with rfl | rfl <;> simp at hm
      · rcases heD with rfl | rfl <;> simp at hm
  have hact : ∀ a s2 done aevs, s.currentAction = some a →
      callAction a (pollButtons s inp.ok inp.next inp.prev) inp = Outcome.ret (s2, done, aevs) →
      ∃ s1 evs, loop s inp = Outcome.ret (s1, evs) := by
    intro a s2 done aevs ha hcall
    exact ⟨_, _, by
      rw [loop_action inp ha]
      exact actionBranch_of_ret (s := pollButtons s inp.ok inp.next inp.prev) hinv.1 hcall⟩
  refine ⟨?_, hidle, hact⟩
  cases hca : s.currentAction with
  | none =>
    obtain ⟨sA, eA, sB, eB, sC, eC, sD, eD, -, -, -, -, hl, -⟩ := hidle hca
    rw [hl]
    exact fun hf => by cases hf
  | some a =>
    intro hf
    rw [loop_action inp hca] at hf
    cases hcall : callAction a (pollButtons s inp.ok inp.next inp.prev) inp with
    | fault => exact callAction_ne_fault _ _ _ hcall
    | restart p => simp [actionBranch, hcall] at hf
    | blocked => simp [actionBranch, hcall] at hf
    | ret r =>
      obtain ⟨s2, done, aevs⟩ := r
      rw [actionBranch_of_ret (s := pollButtons s inp.ok inp.next inp.prev) hinv.1 hcall] at hf
      cases hf

theorem table_access_safe_witness :
    loop standaloneState { ok := true, next := true, prev := true } ≠ Outcome.fault ∧
    loop btNoticeState { clock := 2005 } ≠ Outcome.fault :=
  ⟨(table_access_safe standaloneState { ok := true, next := true, prev := true }
      reachable_standaloneState).1,
   (table_access_safe btNoticeState { clock := 2005 } reachable_btNoticeState).1⟩

/-! ## Evaluations of the code at failing inputs -/

theorem reachable_bleStartedState : Reachable bleStartedState :=
  reachable_of_run bleStartedPath Reachable.init (by decide)

theorem reachable_bleNoticeState : Reachable bleNoticeState :=
  reachable_of_run bleNoticePath Reachable.init (by decide)

theorem reachable_factoryStartedState : Reachable factoryStartedState :=
  reachable_of_run (factoryItemPath ++ [pressOk]) Reachable.init (by decide)

/-- C17, the code at a failing input. While the notice of "BLE Jam" is shown
(action active) the user presses Next: that iteration leaves the cursor alone
but the press stays latched. The notice then completes, and the following
iteration, in which no button is pressed, moves the selection from index 2 to
index 3. The same with OK instead of Next: the iteration after the completion
starts `action_bleJam` again. -/
theorem press_during_action_deferred :
    Reachable bleNoticeState ∧ bleNoticeState.currentAction = some MenuAction.bleJam ∧
    (∃ e, loop bleNoticeState { clock := 6000, next := true }
        = Outcome.ret ({ bleNoticeState with nextPressed := true }, e)) ∧
    (∃ e, loop { bleNoticeState with nextPressed := true } { clock := 7000 }
        = Outcome.ret ({ bleItemState with nextPressed := true }, e)) ∧
    (∃ e, loop { bleItemState with nextPressed := true } { clock := 7016 }
        = Outcome.ret ({ bleItemState with menuPositions := { p0 := 3, p1 := 0, p2 := 0 } }, e)) ∧
    (∃ e, loop bleNoticeState { clock := 6000, ok := true }
        = Outcome.ret ({ bleNoticeState with okPressed := true }, e)) ∧
    (∃ e, loop { bleNoticeState with okPressed := true } { clock := 7000 }
        = Outcome.ret ({ bleItemState with okPressed := true }, e)) ∧
    (∃ e, loop { bleItemState with okPressed := true } { clock := 7016 }
        = Outcome.ret (bleStartedState, e)) :=
  ⟨reachable_bleNoticeState, rfl, ⟨_, rfl⟩, ⟨_, rfl⟩, ⟨_, rfl⟩, ⟨_, rfl⟩, ⟨_, rfl⟩, ⟨_, rfl⟩⟩

/-- C18, the code at a failing input. `action_bleJam` (the notice action) has
just been started. Its first call reads the clock value 0 (`millis()` right
after the 32-bit clock has wrapped): it does the setup and leaves the start
time at 0. The second call, 2500 ms later, does the setup again (same screen,
start time 2500) and returns Running, although 2500 ms have elapsed. With any
other clock value at the first call, e.g. 1, the second call returns Complete. -/
theorem setup_repeated_at_clock_zero :
    Reachable bleStartedState ∧ millis { clock := 4294967296 } = 0 ∧
    loop bleStartedState { clock := 4294967296 }
      = Outcome.ret (bleStartedState,
          [Event.runningActivityScreen "Not Implemented" (get_battery_percentage 0)
            "This feature is not yet implemented.",
           Event.actionCall MenuAction.bleJam false]) ∧
    loop bleStartedState { clock := 4294969796 }
      = Outcome.ret ({ bleStartedState with notImplemented_startTime := 2500 },
          [Event.runningActivityScreen "Not Implemented" (get_battery_percentage 0)
            "This feature is not yet implemented.",
           Event.actionCall MenuAction.bleJam false]) ∧
    (∃ e, loop bleStartedState { clock := 4294967297 }
        = Outcome.ret ({ bleStartedState with notImplemented_startTime := 1 }, e)) ∧
    loop { bleStartedState with notImplemented_startTime := 1 } { clock := 4294969797 }
      = Outcome.ret ({ bleItemState with uiRefresh := true },
          [Event.actionCall MenuAction.bleJam true]) :=
  ⟨reachable_bleStartedState, rfl, rfl, rfl, ⟨_, rfl⟩, rfl⟩

/-- C20, the code at a failing input. In the factory-reset dialog, started from
"Settings > Factory Reset", the user presses Previous twice and then OK. The
first Previous moves the selection from 1 to 0, the second one computes
`(0 - 1) % 2 = -1`, stored in the `uint8_t` as 255: the dialog is drawn with
selected option 255 of 2, and ends with `pos = 255`. -/
theorem dialog_selection_out_of_range :
    Reachable factoryStartedState ∧
    (∃ s1 evs, factory_dialog (resetPressedStates factoryStartedState) 1 prevPrevOkDialog.dialog
        = some (s1, 255, evs) ∧
      evs = [Event.confirmScreen "Factory Reset" (get_battery_percentage 0)
              "Load factory Defaults?" ["Load", "Cancel"] 2 0,
             Event.confirmScreen "Factory Reset" (get_battery_percentage 0)
              "Load factory Defaults?" ["Load", "Cancel"] 2 255,
             Event.confirmScreen "Factory Reset" (get_battery_percentage 0)
              "Load factory Defaults?" ["Load", "Cancel"] 2 255]) ∧
    (∃ s1 evs, loop factoryStartedState prevPrevOkDialog = Outcome.ret (s1, evs) ∧
      Event.confirmScreen "Factory Reset" (get_battery_percentage 0)
        "Load factory Defaults?" ["Load", "Cancel"] 2 255 ∈ evs) ∧
    ¬ (255 < ["Load", "Cancel"].length) :=
  ⟨reachable_factoryStartedState, ⟨_, _, rfl, rfl⟩,
   ⟨_, _, rfl, List.mem_cons_of_mem _ (List.mem_cons_of_mem _ (List.mem_cons_self _ _))⟩,
   by decide⟩

/-! ## Claims C21 to C24 -/

theorem Positions.get?_put_ne (ps : Positions) {i j : Nat} (v : Nat) (hij : i ≠ j) :
    (ps.put i v).get? j = ps.get? j := by
  match i, j, hij with
  | 0, 0, h => exact absurd rfl h
  | 1, 1, h => exact absurd rfl h
  | 2, 2, h => exact absurd rfl h
  | 0, 1, _ => rfl
  | 0, 2, _ => rfl
  | 0, _ + 3, _ => rfl
  | 1, 0, _ => rfl
  | 1, 2, _ => rfl
  | 1, _ + 3, _ => rfl
  | 2, 0, _ => rfl
  | 2, 1, _ => rfl
  | 2, _ + 3, _ => rfl
  | _ + 3, _, _ => rfl

theorem staleInv_congr {s s1 : State} (hd : s1.menuDepth = s.menuDepth)
    (hp : s1.menuPositions = s.menuPositions) (h : StaleInv s) : StaleInv s1 := by
  unfold StaleInv at *
  rw [hd, hp]
  exact h

/-- Writing the position of the current level leaves the levels below it alone. -/
theorem staleInv_put {s : State} (h : StaleInv s) (q : Nat) :
    StaleInv { s with menuPositions := s.menuPositions.put s.menuDepth q } := by
  intro d hd hd2
  have hne : s.menuDepth ≠ d := by
    have : s.menuDepth < d := hd
    omega
  show (s.menuPositions.put s.menuDepth q).get? d = some 0
  rw [Positions.get?_put_ne _ _ hne]
  exact h d hd hd2

theorem nextBlock_stale {s s1 : State} {e : List Event} (h : CursorInv s) (hs : StaleInv s)
    (hb : nextBlock s = some (s1, e)) : StaleInv s1 := by
  cases hpr : s.nextPressed
  · rw [nextBlock_idle hpr] at hb
    simp only [Option.some.injEq, Prod.mk.injEq] at hb
    exact hb.1 ▸ hs
  · obtain ⟨p, n, -, -, -, heq⟩ := nextBlock_of_inv h hpr
    rw [heq] at hb
    simp only [Option.some.injEq, Prod.mk.injEq] at hb
    obtain ⟨rfl, -⟩ := hb
    exact staleInv_congr rfl rfl (staleInv_put hs _)

theorem prevBlock_stale {s s1 : State} {e : List Event} (h : CursorInv s) (hs : StaleInv s)
    (hb : prevBlock s = some (s1, e)) : StaleInv s1 := by
  cases hpr : s.prevPressed
  · rw [prevBlock_idle hpr] at hb
    simp only [Option.some.injEq, Prod.mk.injEq] at hb
    exact hb.1 ▸ hs
  · obtain ⟨p, n, -, -, -, heq⟩ := prevBlock_of_inv h hpr
    rw [heq] at hb
    simp only [Option.some.injEq, Prod.mk.injEq] at hb
    obtain ⟨rfl, -⟩ := hb
    exact staleInv_congr rfl rfl (staleInv_put hs _)

/-- Popping one level and zeroing the position of the level that was left. -/
theorem staleInv_pop {s : State} (h : StaleInv s) (hpos : 0 < s.menuDepth)
    (hd2 : s.menuDepth ≤ 2) {s1 : State} (hd : s1.menuDepth = s.menuDepth - 1)
    (hp : s1.menuPositions = s.menuPositions.put s.menuDepth 0) : StaleInv s1 := by
  intro d hlt hle
  rw [hp]
  by_cases hde : d = s.menuDepth
  · rw [hde]
    exact Positions.get?_put _ _ hd2
  · have hne : s.menuDepth ≠ d := fun e => hde e.symm
    rw [Positions.get?_put_ne _ _ hne]
    exact h d (by omega) hle

/-- Pushing one level and zeroing its position. -/
theorem staleInv_push {s : State} (h : StaleInv s) (_hd2 : s.menuDepth < 2) {s1 : State}
    (hd : s1.menuDepth = s.menuDepth + 1)
    (hp : s1.menuPositions = s.menuPositions.put (s.menuDepth + 1) 0) : StaleInv s1 := by
  intro d hlt hle
  rw [hp]
  have hne : s.menuDepth + 1 ≠ d := by omega
  rw [Positions.get?_put_ne _ _ hne]
  exact h d (by omega) hle

theorem okBlock_stale {s s1 : State} {e : List Event} (h : CursorInv s) (hs : StaleInv s)
    (hb : okBlock s = some (s1, e)) : StaleInv s1 := by
  cases hpr : s.okPressed
  · rw [okBlock_idle hpr] at hb
    simp only [Option.some.injEq, Prod.mk.injEq] at hb
    exact hb.1 ▸ hs
  · obtain ⟨s2, heq, hcase⟩ := okBlock_of_inv h hpr
    rw [heq] at hb
    simp only [Option.some.injEq, Prod.mk.injEq] at hb
    obtain ⟨rfl, -⟩ := hb
    rcases hcase with ⟨hd, -, rfl⟩ | ⟨-, -, hd, rfl⟩ | ⟨-, -, rfl⟩
    · exact staleInv_pop hs (by omega) h.1 (by simp [hd]) (by simp [hd])
    · exact staleInv_push hs hd rfl rfl
    · exact staleInv_congr rfl rfl hs

/-- One iteration of `loop()` keeps the positions below the current level at 0. -/
theorem loop_stale {s s1 : State} {inp : Input} {evs : List Event} (h : CursorInv s)
    (hs : StaleInv s) (hl : loop s inp = Outcome.ret (s1, evs)) : StaleInv s1 := by
  have hP : CursorInv (pollButtons s inp.ok inp.next inp.prev) := cursorInv_congr rfl rfl h
  have hsP : StaleInv (pollButtons s inp.ok inp.next inp.prev) := staleInv_congr rfl rfl hs
  cases hact : s.currentAction with
  | none =>
    rw [loop_idle inp hact] at hl
    obtain ⟨sA, eA, sB, eB, sC, eC, sD, eD, hr, hnb, hpb, hob, hnav, -⟩ :=
      navigation_blocks_of_inv inp hP
    rw [hnav] at hl
    simp only [Outcome.ret.injEq, Prod.mk.injEq] at hl
    obtain ⟨rfl, -⟩ := hl
    obtain ⟨eA1, hr1, -⟩ := renderBlock_of_inv inp hP
    rw [hr1] at hr
    simp only [Option.some.injEq, Prod.mk.injEq] at hr
    obtain ⟨rfl, -⟩ := hr
    have hA : CursorInv { pollButtons s inp.ok inp.next inp.prev with uiRefresh := false } :=
      cursorInv_congr rfl rfl hP
    have hsA : StaleInv { pollButtons s inp.ok inp.next inp.prev with uiRefresh := false } :=
      staleInv_congr rfl rfl hsP
    obtain ⟨sB1, eB1, hnb1, hinvB, -⟩ := nextBlock_total hA
    rw [hnb] at hnb1
    simp only [Option.some.injEq, Prod.mk.injEq] at hnb1
    obtain ⟨rfl, -⟩ := hnb1
    have hsB := nextBlock_stale hA hsA hnb
    obtain ⟨sC1, eC1, hpb1, hinvC, -⟩ := prevBlock_total hinvB
    rw [hpb] at hpb1
    simp only [Option.some.injEq, Prod.mk.injEq] at hpb1
    obtain ⟨rfl, -⟩ := hpb1
    have hsC := prevBlock_stale hinvB hsB hpb
    exact okBlock_stale hinvC hsC hob
  | some a =>
    rw [loop_action inp hact] at hl
    cases hcall : callAction a (pollButtons s inp.ok inp.next inp.prev) inp with
    | fault => simp [actionBranch, hcall] at hl
    | restart p => simp [actionBranch, hcall] at hl
    | blocked => simp [actionBranch, hcall] at hl
    | ret r =>
      obtain ⟨s2, done, aevs⟩ := r
      obtain ⟨h1, h2, -, -, -⟩ := callAction_frame hcall
      rw [actionBranch_of_ret (s := pollButtons s inp.ok inp.next inp.prev) h.1 hcall] at hl
      simp only [Outcome.ret.injEq, Prod.mk.injEq] at hl
      obtain ⟨hs1, -⟩ := hl
      cases done
      · simp only [Bool.false_eq_true, if_false] at hs1
        subst hs1
        exact staleInv_congr h1 h2 hs
      · simp only [if_true] at hs1
        by_cases hpos : 0 < (pollButtons s inp.ok inp.next inp.prev).menuDepth
        · rw [if_pos hpos] at hs1
          subst hs1
          exact staleInv_pop hsP hpos h.1 rfl rfl
        · rw [if_neg hpos] at hs1
          subst hs1
          exact staleInv_congr h1 h2 hs

theorem reachable_stale {s : State} (h : Reachable s) : StaleInv s := by
  induction h with
  | init =>
    intro d hd hd2
    have hd12 : d = 1 ∨ d = 2 := by
      have : 0 < d := hd
      omega
    rcases hd12 with rfl | rfl <;> rfl
  | tick hr hl ih => exact loop_stale (reachable_inv hr) ih hl

/-- C21. In every reachable state `position[d] = 0` for every level `d` below
the current one (`depth < d ≤ 2`). -/
theorem stale_positions_zero (s : State) (d : Nat) (h : Reachable s) (hd : s.menuDepth < d)
    (hd2 : d ≤ 2) : s.menuPositions.get? d = some 0 :=
  reachable_stale h d hd hd2

/-- After "Bluetooth Jam" was entered, its selection moved to index 3 and the
level left through "Return", `position[1]` is 0 again. -/
theorem stale_positions_zero_witness :
    run initialState [pressOk, pressPrev] = some btReturnState ∧
    btReturnState.menuPositions.get? 1 = some 3 ∧
    run btReturnState [pressOk] = some initialState ∧
    initialState.menuPositions.get? 1 = some 0 :=
  ⟨by decide, rfl, by decide,
    stale_positions_zero initialState 1
      (reachable_of_run [pressOk] reachable_btReturnState (by decide)) (by decide) (by decide)⟩

/-- On the shipped tables every item that is neither the depth-1 return item
nor the owner of a submenu has an action bound, and the leaf branch of the OK
block resolves exactly that action. -/
theorem resolveAction_of_leaf {s : State} (h : CursorInv s)
    (hret : ¬ (s.menuDepth = 1 ∧ atLastIndex s)) (hch : ¬ hasChild s) :
    ∃ a, resolveAction s = some (some a) ∧ boundAction s = some a ∧
      a ≠ MenuAction.notImplemented := by
  have hc := cursorInv_cases h
  obtain ⟨r, d, ⟨a, b, c⟩, act, ok, nx, pv, t1, t2⟩ := s
  simp only at hc
  rcases hc with ⟨rfl, h0⟩ | ⟨rfl, ⟨rfl, h1⟩ | ⟨rfl, h1⟩ | ⟨rfl, h1⟩ | ⟨rfl, h1⟩⟩ | ⟨rfl, rfl, rfl, h2⟩
  · interval_cases a <;>
      simp [hasChild, levelAt, depth_1_menuTree] at hch <;>
      simp [resolveAction, boundAction, depth_0_actions]
  · interval_cases b <;>
      simp [atLastIndex, sizeAt, levelAt, depth_1_menuTree, menu_btJam, Positions.get?] at hret <;>
      simp [resolveAction, boundAction, depth_1_actions, depth_1_btJam_actions]
  · interval_cases b <;>
      simp [atLastIndex, sizeAt, levelAt, depth_1_menuTree, menu_wifiJam, Positions.get?] at hret <;>
      simp [resolveAction, boundAction, depth_1_actions, depth_1_wifiJam_actions]
  · interval_cases b <;>
      simp [atLastIndex, sizeAt, levelAt, depth_1_menuTree, menu_droneJam, Positions.get?] at hret <;>
      simp [resolveAction, boundAction, depth_1_actions, depth_1_droneJam_actions]
  · interval_cases b <;>
      simp [atLastIndex, sizeAt, levelAt, depth_1_menuTree, menu_settings, Positions.get?] at hret <;>
      simp [hasChild, levelAt, depth_2_menuTree, depth_2_settings] at hch <;>
      simp [resolveAction, boundAction, depth_1_actions, depth_1_settings_actions]
  · interval_cases c <;>
      simp [resolveAction, boundAction, depth_2_actions, depth_2_settings_actions,
        depth_2_settings_jammingMode_actions]

/-- What the OK block does to `currentAction` under the invariant: nothing, or
it sets it to the non-null table entry of the path that stays selected. -/
theorem okBlock_action {s s1 : State} {e : List Event} (h : CursorInv s)
    (hb : okBlock s = some (s1, e)) :
    s1.currentAction = s.currentAction ∨
    ∃ a, s1.currentAction = some a ∧ a ≠ MenuAction.notImplemented ∧
      resolveAction { s with okPressed := false } = some (some a) ∧
      resolveAction s1 = some (some a) ∧ boundAction s1 = some a := by
  cases hpr : s.okPressed
  · rw [okBlock_idle hpr] at hb
    simp only [Option.some.injEq, Prod.mk.injEq] at hb
    exact Or.inl (hb.1 ▸ rfl)
  · obtain ⟨s2, heq, hcase⟩ := okBlock_of_inv h hpr
    rw [heq] at hb
    simp only [Option.some.injEq, Prod.mk.injEq] at hb
    obtain ⟨rfl, -⟩ := hb
    rcases hcase with ⟨-, -, rfl⟩ | ⟨-, -, -, rfl⟩ | ⟨hret, hch, rfl⟩
    · exact Or.inl rfl
    · exact Or.inl rfl
    · obtain ⟨a, hra, hba, hne⟩ := resolveAction_of_leaf h hret hch
      right
      refine ⟨a, ?_, hne, hra, hra, hba⟩
      simp [hba]

/-- C22. On the shipped tables the fallback to `action_notImplemented` is never
taken. First part: for every cursor allowed by the invariant whose item is
neither the depth-1 return item nor the owner of a submenu (the items on which
OK takes the leaf branch) the action resolved from the tables is not
`nullptr`. Second part: whenever an iteration of `loop()` from a reachable
state with no action active starts an action, that action is the non-null
table entry of the selected path and is not `action_notImplemented`. Third
part: `action_notImplemented` is the active action in no reachable state. -/
theorem leaf_fallback_unused :
    (∀ s : State, CursorInv s → ¬ (s.menuDepth = 1 ∧ atLastIndex s) → ¬ hasChild s →
        ∃ a, resolveAction s = some (some a) ∧ a ≠ MenuAction.notImplemented) ∧
    (∀ (s s1 : State) (inp : Input) (evs : List Event) (a : MenuAction),
        Reachable s → s.currentAction = none → loop s inp = Outcome.ret (s1, evs) →
        s1.currentAction = some a →
        resolveAction s1 = some (some a) ∧ a ≠ MenuAction.notImplemented) ∧
    (∀ s : State, Reachable s → s.currentAction ≠ some MenuAction.notImplemented) := by
  have part2 : ∀ (s s1 : State) (inp : Input) (evs : List Event) (a : MenuAction),
      Reachable s → s.currentAction = none → loop s inp = Outcome.ret (s1, evs) →
      s1.currentAction = some a →
      resolveAction s1 = some (some a) ∧ a ≠ MenuAction.notImplemented := by
    intro s s1 inp evs a h hact hl ha
    have hS : CursorInv s := reachable_inv h
    have hP : CursorInv (pollButtons s inp.ok inp.next inp.prev) := cursorInv_congr rfl rfl hS
    have hA : CursorInv { pollButtons s inp.ok inp.next inp.prev with uiRefresh := false } :=
      cursorInv_congr rfl rfl hP
    obtain ⟨eA, hr, -⟩ := renderBlock_of_inv inp hP
    obtain ⟨sB, eB, hnb, hinvB, -, hcaB, -⟩ := nextBlock_total hA
    obtain ⟨sC, eC, hpb, hinvC, -, hcaC, -⟩ := prevBlock_total hinvB
    obtain ⟨sD, eD, hob, -⟩ := okBlock_total hinvC
    have hnav : navigation (pollButtons s inp.ok inp.next inp.prev) inp
        = some (sD, eA ++ eB ++ eC ++ eD) := by
      simp [navigation, hr, hnb, hpb, hob]
    rw [loop_idle inp hact, hnav] at hl
    simp only [Outcome.ret.injEq, Prod.mk.injEq] at hl
    obtain ⟨rfl, -⟩ := hl
    have hCnone : sC.currentAction = none := by
      rw [hcaC, hcaB]
      exact hact
    rcases okBlock_action hinvC hob with hsame | ⟨a1, ha1, hne, -, hres, -⟩
    · rw [hsame, hCnone] at ha
      cases ha
    · rw [ha1] at ha
      cases ha
      exact ⟨hres, hne⟩
  refine ⟨fun s h hret hch => ?_, part2, fun s h => ?_⟩
  · obtain ⟨a, hra, -, hne⟩ := resolveAction_of_leaf h hret hch
    exact ⟨a, hra, hne⟩
  · induction h with
    | init => intro hc; cases hc
    | @tick s0 s1 inp evs hr hl ih =>
      intro hc
      cases hact : s0.currentAction with
      | none => exact (part2 s0 s1 inp evs _ hr hact hl hc).2 rfl
      | some a =>
        obtain ⟨s2, done, aevs, hcall, -, -, hrun⟩ := loop_action_trace (reachable_inv hr).1 hact hl
        cases done
        · have := (hrun rfl).2.2
          rw [hc] at this
          cases this
          exact ih hact
        · obtain ⟨-, -, hca, -, -⟩ := callAction_frame hcall
          rw [loop_action inp hact,
            actionBranch_of_ret (s := pollButtons s0 inp.ok inp.next inp.prev)
              (reachable_inv hr).1 hcall] at hl
          simp only [Outcome.ret.injEq, Prod.mk.injEq, if_true] at hl
          obtain ⟨hs1, -⟩ := hl
          rw [← hs1] at hc
          split at hc <;> cases hc

theorem leaf_fallback_unused_witness :
    (∃ a, resolveAction factoryItemState = some (some a) ∧ a ≠ MenuAction.notImplemented) ∧
    (resolveAction bleStartedState = some (some MenuAction.bleJam) ∧
      MenuAction.bleJam ≠ MenuAction.notImplemented) ∧
    bleNoticeState.currentAction ≠ some MenuAction.notImplemented :=
  ⟨leaf_fallback_unused.1 factoryItemState (reachable_inv reachable_factoryItemState)
      (fun hr => by
        obtain ⟨-, p, n, hp, hn, hpn⟩ := hr
        simp [factoryItemState, initialState, Positions.get?, sizeAt, levelAt, depth_1_menuTree,
          menu_settings] at hp hn
        omega)
      (by unfold hasChild; decide),
   leaf_fallback_unused.2.1 bleItemState bleStartedState pressOk _ MenuAction.bleJam
      reachable_bleItemState rfl rfl rfl,
   leaf_fallback_unused.2.2 bleNoticeState reachable_bleNoticeState⟩

/-- Whatever the store held before, a restart out of `factory_settings()`
leaves exactly the two default entries in it. -/
theorem factory_settings_restart {s : State} {inp : Input} {p : Prefs}
    (h : factory_settings s inp = Outcome.restart p) : p = factoryDefaults := by
  simp only [factory_settings] at h
  split at h
  · cases h
  · split at h
    · cases h
    · split at h
      · simp only [Outcome.restart.injEq] at h
        rw [← h]
        rfl
      · cases h

/-- C23. The defaults written by a confirmed factory reset pass the bootstrap
gate. Whenever `factory_settings()` ends in a restart, for every prior content
of the store and every size of the radio configuration record: the store then
holds "radio_count" = 0 and "radio_jam_mode" = `JAM_TX_SIMULTANEOUS` and
nothing else, `load_configs()` on it returns true, and `setup()` after the
restart (without the factory-reset chord) reaches the main loop in the fresh
state. -/
theorem factory_defaults_pass_gate (s : State) (inp : Input) (p : Prefs) (sz : Nat)
    (h : factory_settings s inp = Outcome.restart p) :
    p.getUChar CONFIG_KEY_RADIO_NUM 255 = 0 ∧
    p.find? CONFIG_KEY_RADIO_JAM_MODE = some [JAM_TX_SIMULTANEOUS, 0, 0, 0] ∧
    load_configs sz (some p) = true ∧
    ∀ inp2 : Input, setup sz (some p) false false inp2
      = Boot.running initialState [Event.showRunningActivity "otg jammer"] := by
  have hp := factory_settings_restart h
  subst hp
  have h1 : (CONFIG_MANDATORY_KEYS.any fun key => !factoryDefaults.isKey key) = false := by
    decide
  have h2 : factoryDefaults.getUChar CONFIG_KEY_RADIO_NUM 0 = 0 := by decide
  have h3 : factoryDefaults.getBytes CONFIG_KEY_RADIO_JAM_MODE SIZEOF_JAM_TX_MODE = 4 := by
    decide
  have h4 : factoryDefaults.getBytesLength CONFIG_KEY_RADIO_JAM_MODE = 4 := by decide
  have hl : load_configs sz (some factoryDefaults) = true := by
    simp [load_configs, h1, h2, h3, h4]
  refine ⟨by decide, by decide, hl, fun inp2 => ?_⟩
  simp [setup, hl]
  rfl

theorem factory_defaults_pass_gate_witness :
    factory_settings factoryStartedState confirmDialog = Outcome.restart factoryDefaults ∧
    load_configs 8 (some factoryDefaults) = true :=
  ⟨by decide,
   (factory_defaults_pass_gate factoryStartedState confirmDialog factoryDefaults 8
      (by decide)).2.2.1⟩

/-- The value printed by `get_battery_percentage()` is `100 * (reading - 2)`. -/
theorem arduino_map_battery (adc : Nat) :
    arduino_map adc VBAT_VOLTAGE_EMPTY_long VBAT_VOLTAGE_FULL_long 0 100
      = 100 * ((adc : Int) - 2) := by
  simp only [arduino_map, VBAT_VOLTAGE_EMPTY_long, VBAT_VOLTAGE_FULL_long]
  norm_num
  ring

/-- C24, the code at failing inputs. With `2.8f` and `3.3f` converted to the
`long` arguments 2 and 3, `map` returns `100 * (reading - 2)`: the string is
"-200%" for the reading 0 and "409300%" for the reading 4095, and the printed
value lies between 0 and 100 for the readings 2 and 3 only. -/
theorem battery_percentage_out_of_range :
    get_battery_percentage 0 = "-200%" ∧ get_battery_percentage 4095 = "409300%" ∧
    get_battery_percentage 2048 = "204600%" ∧
    (∀ adc : Nat,
      (0 ≤ arduino_map adc VBAT_VOLTAGE_EMPTY_long VBAT_VOLTAGE_FULL_long 0 100 ∧
        arduino_map adc VBAT_VOLTAGE_EMPTY_long VBAT_VOLTAGE_FULL_long 0 100 ≤ 100) ↔
      (adc = 2 ∨ adc = 3)) := by
  refine ⟨by decide, by decide, by decide, fun adc => ?_⟩
  rw [arduino_map_battery]
  omega

end Jammer
